import Mathlib

/-!
# Verification of the AeroBench simulation-stepping engine

This file gives a shallow embedding of `src/code/aerobench/run_f16_sim.py`:
the derivative evaluator built by `make_der_func`, the simulation engine
`F16SimState.__init__` / `F16SimState.simulate_to`, and the integrator
strategy contract the engine drives.  Machine floats are modelled as exact
rationals (`ℚ`); Python exceptions are modelled with `Except`; the stateful
`while` loops of `simulate_to` are modelled as fuel-indexed recursion where
running out of fuel is a distinguished error (the real loops are unbounded).

The external collaborators (the autopilot object, the dynamics model
`controlled_f16`) are parameters of the embedding, exactly as they are
parameters of the engine in the source.  The concrete integrator classes
(`scipy.integrate.RK45` and `aerobench.util.Euler`) are not part of the
source tree under verification; where a claim depends on them they are
modelled from the specification's integrator contract (§4.1), as noted on
the corresponding definitions.
-/

namespace AeroBench

/-! ## Aircraft state layout

The state layout constants come from `aerobench.util.get_state_names` and
`aerobench.util.StateIndex`, which the derivative evaluator imports.  The
spec describes the layout (position, orientation, velocity, angular rates,
then controller-owned integrator-error states); the concrete index values
are fixed parameters of that layout and no claim depends on them. -/

/-- Length of `get_state_names()`: the 13 base aircraft state components. -/
def STATE_NAMES_LEN : ℕ := 13

namespace StateIndex

/-- Index of airspeed (`StateIndex.VEL`) in an aircraft state vector. -/
def VEL : ℕ := 0

/-- Index of angle-of-attack (`StateIndex.ALPHA`) in an aircraft state vector. -/
def ALPHA : ℕ := 1

/-- Index of altitude (`StateIndex.ALT`) in an aircraft state vector. -/
def ALT : ℕ := 11

end StateIndex

/-! ## The derivative evaluator (`make_der_func` / `der_func`) -/

/-- Which physical quantity a `SimModelError` message reports. -/
inductive Quantity where
  | alpha
  | velocity
  | altitude
deriving DecidableEq, Repr

/-- Failures the derivative evaluator can signal.  `simModelError q v`
models `raise SimModelError(f"... ({v}) out of bounds")` for quantity `q`
carrying the offending value `v`; `assertionError` models the failure of
`assert full_state.size // num_vars == num_aircraft`. -/
inductive DerFault where
  | simModelError (q : Quantity) (value : ℚ)
  | assertionError
deriving DecidableEq, Repr

/-- Body of the `for i in range(num_aircraft)` loop of `der_func` for one
aircraft index `i`: slice the sub-state, validate angle-of-attack, airspeed
and altitude in that order, slice the control reference and invoke the
dynamics model `f16xd` (the `controlled_f16(...)[0]` collaborator). -/
def derAircraft (f16xd : ℚ → List ℚ → List ℚ → List ℚ) (num_vars : ℕ)
    (t : ℚ) (full_state u_refs : List ℚ) (i : ℕ) : Except DerFault (List ℚ) :=
  let state := (full_state.drop (num_vars * i)).take num_vars
  let alpha := state.getD StateIndex.ALPHA 0
  if ¬(-2 < alpha ∧ alpha < 2) then .error (.simModelError .alpha alpha)
  else
    let vel := state.getD StateIndex.VEL 0
    if ¬(200 ≤ vel ∧ vel ≤ 3000) then .error (.simModelError .velocity vel)
    else
      let alt := state.getD StateIndex.ALT 0
      if ¬(-10000 < alt ∧ alt < 100000) then .error (.simModelError .altitude alt)
      else
        let u_ref := (u_refs.drop (4 * i)).take 4
        .ok (f16xd t state u_ref)

/-- The loop of `der_func` over a list of aircraft indices, accumulating
the per-aircraft derivative vectors `xds` (first failure aborts, as a
raised exception does). -/
def derAircraftList (f16xd : ℚ → List ℚ → List ℚ → List ℚ) (num_vars : ℕ)
    (t : ℚ) (full_state u_refs : List ℚ) :
    List ℕ → Except DerFault (List (List ℚ))
  | [] => .ok []
  | i :: rest => do
    let xd ← derAircraft f16xd num_vars t full_state u_refs i
    let xds ← derAircraftList f16xd num_vars t full_state u_refs rest
    pure (xd :: xds)

/-- The combined derivative function produced by `make_der_func`, with the
captured collaborators as parameters: `get_checked_u_ref` is the autopilot's
checked control-reference accessor `ap.get_checked_u_ref`, `f16xd` is the
dynamics model, `num_integrators` is `ap.llc.get_num_integrators()`.
Mirrors the source: first query the accessor on the whole concatenated
state, derive `num_aircraft = u_refs.size // 4`, assert
`full_state.size // num_vars == num_aircraft`, then run the per-aircraft
loop and `np.hstack` (= `List.join`) the results. -/
def der_func (get_checked_u_ref : ℚ → List ℚ → List ℚ)
    (f16xd : ℚ → List ℚ → List ℚ → List ℚ) (num_integrators : ℕ)
    (t : ℚ) (full_state : List ℚ) : Except DerFault (List ℚ) :=
  let u_refs := get_checked_u_ref t full_state
  let num_aircraft := u_refs.length / 4
  let num_vars := STATE_NAMES_LEN + num_integrators
  if full_state.length / num_vars = num_aircraft then
    (derAircraftList f16xd num_vars t full_state u_refs
        (List.range num_aircraft)).map (fun xds => xds.flatten)
  else .error .assertionError

/-- Envelope violation for the `i`-th aircraft sub-state of a concatenated
state: angle-of-attack outside the open interval `(-2, 2)`, airspeed outside
the closed interval `[200, 3000]`, or altitude outside `(-10000, 100000)`. -/
def violatesEnvelope (num_vars : ℕ) (full_state : List ℚ) (i : ℕ) : Prop :=
  let state := (full_state.drop (num_vars * i)).take num_vars
  ¬(-2 < state.getD StateIndex.ALPHA 0 ∧ state.getD StateIndex.ALPHA 0 < 2) ∨
  ¬(200 ≤ state.getD StateIndex.VEL 0 ∧ state.getD StateIndex.VEL 0 ≤ 3000) ∨
  ¬(-10000 < state.getD StateIndex.ALT 0 ∧ state.getD StateIndex.ALT 0 < 100000)

instance (num_vars : ℕ) (full_state : List ℚ) (i : ℕ) :
    Decidable (violatesEnvelope num_vars full_state i) := by
  unfold violatesEnvelope
  infer_instance

/-- A `DerFault` payload is offending when the reported quantity's value
really does lie outside its valid envelope. -/
def offendingPayload : DerFault → Prop
  | .simModelError .alpha v => ¬(-2 < v ∧ v < 2)
  | .simModelError .velocity v => ¬(200 ≤ v ∧ v ≤ 3000)
  | .simModelError .altitude v => ¬(-10000 < v ∧ v < 100000)
  | .assertionError => False

/-! ### Lemmas about the per-aircraft loop -/

deriving instance DecidableEq for Except

theorem except_bind_ok {α β ε : Type} (a : α) (f : α → Except ε β) :
    (Except.ok a >>= f) = f a := rfl

theorem except_bind_error {α β ε : Type} (e : ε) (f : α → Except ε β) :
    ((Except.error e : Except ε α) >>= f) = .error e := rfl

theorem derAircraft_ok_of_not_violates (f16xd : ℚ → List ℚ → List ℚ → List ℚ)
    (num_vars : ℕ) (t : ℚ) (full_state u_refs : List ℚ) (i : ℕ)
    (h : ¬ violatesEnvelope num_vars full_state i) :
    derAircraft f16xd num_vars t full_state u_refs i =
      .ok (f16xd t ((full_state.drop (num_vars * i)).take num_vars)
        ((u_refs.drop (4 * i)).take 4)) := by
  unfold violatesEnvelope at h
  rw [not_or, not_or] at h
  obtain ⟨h1, h2, h3⟩ := h
  unfold derAircraft
  simp only [if_neg h1, if_neg h2, if_neg h3]

theorem derAircraft_error_of_violates
    (num_vars : ℕ) (t : ℚ) (full_state u_refs : List ℚ) (i : ℕ)
    (h : violatesEnvelope num_vars full_state i) :
    ∃ q v, (∀ g : ℚ → List ℚ → List ℚ → List ℚ,
        derAircraft g num_vars t full_state u_refs i = .error (.simModelError q v)) ∧
      offendingPayload (.simModelError q v) := by
  unfold violatesEnvelope at h
  unfold derAircraft
  by_cases h1 : ¬(-2 < (( full_state.drop (num_vars * i)).take num_vars).getD StateIndex.ALPHA 0 ∧
      ((full_state.drop (num_vars * i)).take num_vars).getD StateIndex.ALPHA 0 < 2)
  · exact ⟨.alpha, _, fun g => by simp only [if_pos h1], h1⟩
  · by_cases h2 : ¬(200 ≤ ((full_state.drop (num_vars * i)).take num_vars).getD StateIndex.VEL 0 ∧
        ((full_state.drop (num_vars * i)).take num_vars).getD StateIndex.VEL 0 ≤ 3000)
    · exact ⟨.velocity, _, fun g => by simp only [if_neg h1, if_pos h2], h2⟩
    · have h3 : ¬(-10000 < ((full_state.drop (num_vars * i)).take num_vars).getD StateIndex.ALT 0 ∧
          ((full_state.drop (num_vars * i)).take num_vars).getD StateIndex.ALT 0 < 100000) := by
        rcases h with h | h | h
        · exact absurd h h1.elim
        · exact absurd h h2.elim
        · exact h
      exact ⟨.altitude, _, fun g => by simp only [if_neg h1, if_neg h2, if_pos h3], h3⟩

theorem derAircraftList_ok_of_forall (f16xd : ℚ → List ℚ → List ℚ → List ℚ)
    (num_vars : ℕ) (t : ℚ) (full_state u_refs : List ℚ) (l : List ℕ)
    (h : ∀ i ∈ l, ¬ violatesEnvelope num_vars full_state i) :
    derAircraftList f16xd num_vars t full_state u_refs l =
      .ok (l.map (fun i => f16xd t ((full_state.drop (num_vars * i)).take num_vars)
        ((u_refs.drop (4 * i)).take 4))) := by
  induction l with
  | nil => rfl
  | cons i rest ih =>
    have hi := derAircraft_ok_of_not_violates f16xd num_vars t full_state u_refs i
      (h i (List.mem_cons_self i rest))
    have hr := ih (fun j hj => h j (List.mem_cons_of_mem i hj))
    simp only [derAircraftList, hi, hr, List.map_cons, except_bind_ok]
    rfl

/-- Either every index in `l` passes validation, or the loop's outcome is a
fixed model-domain error that does not depend on the dynamics model. -/
theorem derAircraftList_error_or_clean (num_vars : ℕ)
    (t : ℚ) (full_state u_refs : List ℚ) (l : List ℕ) :
    (∀ i ∈ l, ¬ violatesEnvelope num_vars full_state i) ∨
    (∃ q v, offendingPayload (.simModelError q v) ∧
      ∀ f16xd : ℚ → List ℚ → List ℚ → List ℚ,
        derAircraftList f16xd num_vars t full_state u_refs l =
          .error (.simModelError q v)) := by
  induction l with
  | nil => exact Or.inl (by simp)
  | cons i rest ih =>
    by_cases hi : violatesEnvelope num_vars full_state i
    · obtain ⟨q, v, herr, hpay⟩ := derAircraft_error_of_violates
        num_vars t full_state u_refs i hi
      refine Or.inr ⟨q, v, hpay, fun f16xd => ?_⟩
      simp only [derAircraftList, herr f16xd, except_bind_error]
    · rcases ih with hclean | ⟨q, v, hpay, herr⟩
      · refine Or.inl ?_
        intro j hj
        rcases List.mem_cons.mp hj with rfl | hj
        · exact hi
        · exact hclean j hj
      · refine Or.inr ⟨q, v, hpay, fun f16xd => ?_⟩
        have hok := derAircraft_ok_of_not_violates f16xd num_vars t full_state u_refs i hi
        simp only [derAircraftList, hok, herr f16xd, except_bind_ok, except_bind_error]

/-- Any error produced by the per-aircraft loop is a model-domain error with
an offending payload (in particular never an `assertionError`). -/
theorem derAircraftList_error_payload (f16xd : ℚ → List ℚ → List ℚ → List ℚ)
    (num_vars : ℕ) (t : ℚ) (full_state u_refs : List ℚ) (l : List ℕ) :
    ∀ e : DerFault,
      derAircraftList f16xd num_vars t full_state u_refs l = .error e →
        offendingPayload e := by
  induction l with
  | nil =>
    intro e h
    exact absurd h (by simp [derAircraftList])
  | cons i rest ih =>
    intro e h
    by_cases hi : violatesEnvelope num_vars full_state i
    · obtain ⟨q, v, herr, hpay⟩ := derAircraft_error_of_violates
        num_vars t full_state u_refs i hi
      rw [derAircraftList, herr f16xd] at h
      simp only [except_bind_error, Except.error.injEq] at h
      rw [← h]
      exact hpay
    · have hok := derAircraft_ok_of_not_violates f16xd num_vars t full_state u_refs i hi
      rw [derAircraftList, hok] at h
      simp only [except_bind_ok] at h
      cases hrest : derAircraftList f16xd num_vars t full_state u_refs rest with
      | error e' =>
        rw [hrest] at h
        simp only [except_bind_error, Except.error.injEq] at h
        exact h ▸ ih e' hrest
      | ok xs =>
        rw [hrest] at h
        simp at h

theorem except_map_error {α β ε : Type} (e : ε) (f : α → β) :
    (Except.error e : Except ε α).map f = .error e := rfl

theorem except_map_ok {α β ε : Type} (a : α) (f : α → β) :
    (Except.ok a : Except ε α).map f = .ok (f a) := rfl

/-- Reduction of `der_func` when the aircraft-count assertion passes. -/
theorem der_func_reduces (u : ℚ → List ℚ → List ℚ)
    (f16xd : ℚ → List ℚ → List ℚ → List ℚ) (nI : ℕ) (t : ℚ) (s : List ℚ) (n : ℕ)
    (hdiv1 : s.length / (STATE_NAMES_LEN + nI) = n)
    (hdiv2 : (u t s).length / 4 = n) :
    der_func u f16xd nI t s =
      (derAircraftList f16xd (STATE_NAMES_LEN + nI) t s (u t s) (List.range n)).map
        (fun xds => xds.flatten) := by
  simp only [der_func, hdiv1, hdiv2, if_pos]

/-- The per-aircraft loop result only depends on the visited slices of the
concatenated state. -/
theorem derAircraftList_congr (f16xd : ℚ → List ℚ → List ℚ → List ℚ)
    (num_vars : ℕ) (t : ℚ) (s1 s2 u_refs : List ℚ) (l : List ℕ)
    (h : ∀ i ∈ l, (s1.drop (num_vars * i)).take num_vars =
      (s2.drop (num_vars * i)).take num_vars) :
    derAircraftList f16xd num_vars t s1 u_refs l =
      derAircraftList f16xd num_vars t s2 u_refs l := by
  induction l with
  | nil => rfl
  | cons i rest ih =>
    have hslice := h i (List.mem_cons_self i rest)
    have hrest := ih (fun j hj => h j (List.mem_cons_of_mem i hj))
    simp only [derAircraftList, derAircraft, hslice, hrest]

/-! ### Concrete collaborators used by witnesses and counterexamples -/

/-- A checked control-reference accessor returning one 4-tuple of zeros. -/
def uZero4 : ℚ → List ℚ → List ℚ := fun _ _ => [0, 0, 0, 0]

/-- A checked control-reference accessor returning two 4-tuples of zeros. -/
def uZero8 : ℚ → List ℚ → List ℚ := fun _ _ => [0, 0, 0, 0, 0, 0, 0, 0]

/-- A dynamics model whose derivative is identically zero (an admissible
instance of the external `controlled_f16` collaborator). -/
def f16Zero : ℚ → List ℚ → List ℚ → List ℚ := fun _ state _ => state.map (fun _ => 0)

/-- An in-bounds nominal aircraft state: airspeed 500, angle-of-attack 0,
altitude 1000, all other components 0. -/
def nominalState : List ℚ := [500, 0, 0, 0, 0, 0, 0, 0, 0, 0, 0, 1000, 0]

/-- A state whose angle-of-attack (index 1) is 3, outside `(-2, 2)`. -/
def badAlphaState : List ℚ := [500, 3, 0, 0, 0, 0, 0, 0, 0, 0, 0, 1000, 0]

/-! ### Claim C6 -/

/-- **C6.** For every time and concatenated state (with the accessor
honouring its 4-per-aircraft contract), the derivative evaluator produces a
model-domain error carrying an offending quantity/value iff some aircraft
sub-state violates the envelope: angle-of-attack outside `(-2, 2)`, airspeed
outside `[200, 3000]`, altitude outside `(-10000, 100000)`; otherwise it
returns the concatenation of the per-aircraft derivative vectors in
aircraft order. -/
theorem der_func_envelope_error_iff
    (u : ℚ → List ℚ → List ℚ) (f16xd : ℚ → List ℚ → List ℚ → List ℚ)
    (nI n : ℕ) (t : ℚ) (s : List ℚ)
    (hlen : s.length = (STATE_NAMES_LEN + nI) * n)
    (huref : (u t s).length = 4 * n) :
    ((∃ i, i < n ∧ violatesEnvelope (STATE_NAMES_LEN + nI) s i) ↔
      ∃ q v, der_func u f16xd nI t s = .error (.simModelError q v)) ∧
    (∀ e, der_func u f16xd nI t s = .error e → offendingPayload e) ∧
    ((∀ i, i < n → ¬ violatesEnvelope (STATE_NAMES_LEN + nI) s i) →
      der_func u f16xd nI t s =
        .ok (((List.range n).map (fun i =>
          f16xd t ((s.drop ((STATE_NAMES_LEN + nI) * i)).take (STATE_NAMES_LEN + nI))
            (((u t s).drop (4 * i)).take 4))).flatten)) := by
  have hnv : 0 < STATE_NAMES_LEN + nI := by unfold STATE_NAMES_LEN; omega
  have hdiv1 : s.length / (STATE_NAMES_LEN + nI) = n := by
    rw [hlen, Nat.mul_div_cancel_left _ hnv]
  have hdiv2 : (u t s).length / 4 = n := by
    rw [huref, Nat.mul_div_cancel_left _ (by omega : (0:ℕ) < 4)]
  have hred := fun g => der_func_reduces u g nI t s n hdiv1 hdiv2
  refine ⟨?_, ?_, ?_⟩
  · constructor
    · rintro ⟨i, hin, hviol⟩
      rcases derAircraftList_error_or_clean (STATE_NAMES_LEN + nI) t s (u t s)
          (List.range n) with hclean | ⟨q, v, hpay, herr⟩
      · exact absurd hviol (hclean i (List.mem_range.mpr hin))
      · exact ⟨q, v, by rw [hred f16xd, herr f16xd, except_map_error]⟩
    · rintro ⟨q, v, herr⟩
      by_contra hno
      push_neg at hno
      have hok := derAircraftList_ok_of_forall f16xd (STATE_NAMES_LEN + nI) t s (u t s)
        (List.range n) (fun i hi => hno i (List.mem_range.mp hi))
      rw [hred f16xd, hok, except_map_ok] at herr
      exact absurd herr (by simp)
  · intro e he
    rw [hred f16xd] at he
    cases hlist : derAircraftList f16xd (STATE_NAMES_LEN + nI) t s (u t s) (List.range n) with
    | error e' =>
      rw [hlist, except_map_error] at he
      injection he with h
      subst h
      exact derAircraftList_error_payload f16xd _ t s (u t s) _ _ hlist
    | ok xs =>
      rw [hlist, except_map_ok] at he
      exact absurd he (by simp)
  · intro hall
    have hok := derAircraftList_ok_of_forall f16xd (STATE_NAMES_LEN + nI) t s (u t s)
      (List.range n) (fun i hi => hall i (List.mem_range.mp hi))
    rw [hred f16xd, hok, except_map_ok]

/-- Witness for C6: a single nominal in-bounds aircraft state gives the
clean concatenated-derivative result. -/
theorem der_func_envelope_error_iff_witness :
    der_func uZero4 f16Zero 0 0 nominalState =
      .ok (((List.range 1).map (fun i =>
        f16Zero 0 ((nominalState.drop ((STATE_NAMES_LEN + 0) * i)).take (STATE_NAMES_LEN + 0))
          (((uZero4 0 nominalState).drop (4 * i)).take 4))).flatten) :=
  (der_func_envelope_error_iff uZero4 f16Zero 0 1 0 nominalState (by decide)
      (by decide)).2.2
    (by intro i hi; have h0 : i = 0 := Nat.lt_one_iff.mp hi; subst h0; decide)

/-! ### Claim C10 -/

/-- **C10.** The aircraft-count consistency check of the derivative
evaluator uses integer floor division, so a concatenated state with up to
`num_vars - 1` extra trailing components passes the check, and the trailing
components are silently ignored (the result coincides with the result on
the truncated state) rather than rejected. -/
theorem der_func_floor_division_trailing_ignored
    (u : ℚ → List ℚ → List ℚ) (f16xd : ℚ → List ℚ → List ℚ → List ℚ)
    (nI k r : ℕ) (t : ℚ) (s : List ℚ)
    (hlen : s.length = (STATE_NAMES_LEN + nI) * k + r)
    (hr : r < STATE_NAMES_LEN + nI)
    (huref : (u t s).length = 4 * k)
    (hu : u t (s.take ((STATE_NAMES_LEN + nI) * k)) = u t s) :
    der_func u f16xd nI t s ≠ .error .assertionError ∧
    der_func u f16xd nI t s =
      der_func u f16xd nI t (s.take ((STATE_NAMES_LEN + nI) * k)) := by
  have hnv : 0 < STATE_NAMES_LEN + nI := by unfold STATE_NAMES_LEN; omega
  have hdiv1 : s.length / (STATE_NAMES_LEN + nI) = k := by
    rw [hlen, Nat.mul_add_div hnv, Nat.div_eq_of_lt hr]
    omega
  have hdiv2 : (u t s).length / 4 = k := by
    rw [huref, Nat.mul_div_cancel_left _ (by omega : (0:ℕ) < 4)]
  have hlen' : (s.take ((STATE_NAMES_LEN + nI) * k)).length = (STATE_NAMES_LEN + nI) * k := by
    rw [List.length_take, hlen]
    omega
  have hdiv1' : (s.take ((STATE_NAMES_LEN + nI) * k)).length / (STATE_NAMES_LEN + nI) = k := by
    rw [hlen', Nat.mul_div_cancel_left _ hnv]
  have hdiv2' : (u t (s.take ((STATE_NAMES_LEN + nI) * k))).length / 4 = k := by
    rw [hu, hdiv2]
  have hslice : ∀ i ∈ List.range k,
      (((s.take ((STATE_NAMES_LEN + nI) * k)).drop ((STATE_NAMES_LEN + nI) * i)).take
        (STATE_NAMES_LEN + nI)) =
      ((s.drop ((STATE_NAMES_LEN + nI) * i)).take (STATE_NAMES_LEN + nI)) := by
    intro i hi
    have hik : i < k := List.mem_range.mp hi
    rw [List.drop_take, List.take_take]
    congr 1
    have h1 : (STATE_NAMES_LEN + nI) * (i + 1) ≤ (STATE_NAMES_LEN + nI) * k :=
      Nat.mul_le_mul_left _ hik
    have h2 : (STATE_NAMES_LEN + nI) * (i + 1) =
        (STATE_NAMES_LEN + nI) * i + (STATE_NAMES_LEN + nI) := by ring
    omega
  constructor
  · rw [der_func_reduces u f16xd nI t s k hdiv1 hdiv2]
    cases hlist : derAircraftList f16xd (STATE_NAMES_LEN + nI) t s (u t s) (List.range k) with
    | error e =>
      have hpay := derAircraftList_error_payload f16xd _ t s (u t s) _ _ hlist
      rw [except_map_error]
      intro hcontra
      injection hcontra with h
      rw [h] at hpay
      exact hpay
    | ok xs =>
      rw [except_map_ok]
      exact fun h => absurd h (by simp)
  · rw [der_func_reduces u f16xd nI t s k hdiv1 hdiv2,
      der_func_reduces u f16xd nI t (s.take ((STATE_NAMES_LEN + nI) * k)) k hdiv1' hdiv2',
      hu, derAircraftList_congr f16xd (STATE_NAMES_LEN + nI) t
        (s.take ((STATE_NAMES_LEN + nI) * k)) s (u t s) (List.range k) hslice]

/-- Witness for C10: a 14-component state (13 + one trailing extra) passes
the floor-division check and the trailing component is ignored. -/
theorem der_func_floor_division_trailing_ignored_witness :
    der_func uZero4 f16Zero 0 0 (nominalState ++ [7]) ≠ .error .assertionError ∧
    der_func uZero4 f16Zero 0 0 (nominalState ++ [7]) =
      der_func uZero4 f16Zero 0 0 ((nominalState ++ [7]).take ((STATE_NAMES_LEN + 0) * 1)) :=
  der_func_floor_division_trailing_ignored uZero4 f16Zero 0 1 1 0 (nominalState ++ [7])
    (by decide) (by decide) (by decide) (by decide)

/-! ### Claim C5 -/

/-- **C5, counterexample.** The claim says the autopilot's checked
control-reference accessor is not invoked before a bounds-violating
sub-state has been rejected.  In the source, `der_func` calls
`ap.get_checked_u_ref(t, full_state)` first, before any validation: on a
state whose angle-of-attack is out of bounds, the outcome still depends on
what the accessor returns (a 4-vector yields the model-domain error, an
8-vector trips the aircraft-count assertion instead), so the accessor is
consulted before rejection. -/
theorem accessor_consulted_before_validation :
    violatesEnvelope 13 badAlphaState 0 ∧
    der_func uZero4 f16Zero 0 0 badAlphaState = .error (.simModelError .alpha 3) ∧
    der_func uZero8 f16Zero 0 0 badAlphaState = .error .assertionError ∧
    der_func uZero4 f16Zero 0 0 badAlphaState ≠ der_func uZero8 f16Zero 0 0 badAlphaState := by
  decide

/-- **C5, amended.** The accessor is invoked once for the whole
concatenated state up front; within the per-aircraft loop, validation
precedes the dynamics-model invocation: whenever some sub-state violates
the envelope, the evaluator's result is one fixed model-domain error with
an offending payload, independent of the dynamics model. -/
theorem validation_gates_dynamics_model
    (u : ℚ → List ℚ → List ℚ) (nI n : ℕ) (t : ℚ) (s : List ℚ) (i : ℕ)
    (hlen : s.length = (STATE_NAMES_LEN + nI) * n)
    (huref : (u t s).length = 4 * n)
    (hin : i < n) (hviol : violatesEnvelope (STATE_NAMES_LEN + nI) s i) :
    ∃ q v, offendingPayload (.simModelError q v) ∧
      ∀ f16xd : ℚ → List ℚ → List ℚ → List ℚ,
        der_func u f16xd nI t s = .error (.simModelError q v) := by
  have hnv : 0 < STATE_NAMES_LEN + nI := by unfold STATE_NAMES_LEN; omega
  have hdiv1 : s.length / (STATE_NAMES_LEN + nI) = n := by
    rw [hlen, Nat.mul_div_cancel_left _ hnv]
  have hdiv2 : (u t s).length / 4 = n := by
    rw [huref, Nat.mul_div_cancel_left _ (by omega : (0:ℕ) < 4)]
  rcases derAircraftList_error_or_clean (STATE_NAMES_LEN + nI) t s (u t s)
      (List.range n) with hclean | ⟨q, v, hpay, herr⟩
  · exact absurd hviol (hclean i (List.mem_range.mpr hin))
  · exact ⟨q, v, hpay, fun f16xd => by
      rw [der_func_reduces u f16xd nI t s n hdiv1 hdiv2, herr f16xd, except_map_error]⟩

/-- Witness for the amended C5 at the out-of-bounds angle-of-attack state. -/
theorem validation_gates_dynamics_model_witness :
    ∃ q v, offendingPayload (.simModelError q v) ∧
      ∀ f16xd : ℚ → List ℚ → List ℚ → List ℚ,
        der_func uZero4 f16xd 0 0 badAlphaState = .error (.simModelError q v) :=
  validation_gates_dynamics_model uZero4 0 1 0 badAlphaState 0
    (by decide) (by decide) (by decide) (by decide)

/-! ## The integrator contract and the simulation engine

`F16SimState` owns an integrator object with fields `t` (current internal
time), `x` (current internal state, the field read on line 130 of the
source), `status`, and a dense-output interpolant over its last internal
step (`dense_output()` evaluated at a requested time).  The engine reads
and replaces this object; the object's stepping behaviour is supplied by
the chosen strategy class. -/

/-- Integrator lifecycle status strings: `'running'`, `'finished'`,
`'autopilot finished'` (set by the engine on line 152), `'failed'`. -/
inductive IntegratorStatus where
  | running
  | finished
  | autopilotFinished
  | failed
deriving DecidableEq, Repr

/-- An integrator instance: internal time, internal state, status, and the
dense-output interpolant of the last internal step. -/
structure Integrator (S : Type) where
  t : ℚ
  x : S
  status : IntegratorStatus
  dense : ℚ → S

/-- The fixed data of one engine: the construction arguments of
`F16SimState.__init__` together with the collaborator operations the
engine invokes.  `mkIntegrator t x` models
`integrator_class(der_func, t, x, np.inf, **integrator_kwargs)` (the
strategy class with its captured kwargs and derivative function);
`stepIntegrator` models `integrator.step()`; the three autopilot fields
model `ap.advance_discrete_mode`, `ap.mode` and `ap.is_finished`; and
`get_extended_states` models the `get_extended_states(ap, t, x, ...)`
call, returning the 5-tuple `(xd, u, Nz, ps, Ny_r)`. -/
structure SimConfig (S A M E : Type) where
  step : ℚ
  extended_states : Bool
  advance_discrete_mode : ℚ → S → A → A × Bool
  mode : A → M
  is_finished : ℚ → S → A → Bool
  get_extended_states : ℚ → S → A → E × E × E × E × E
  mkIntegrator : ℚ → S → Integrator S
  stepIntegrator : Integrator S → Integrator S

/-- The mutable state of an `F16SimState` object: the recorded trajectory
(`times`, `states`, `modes` and, when enabled, the five extended lists),
the autopilot's internal state `ap`, the current integrator instance and
`cur_sim_time`. -/
structure EngineState (S A M E : Type) where
  times : List ℚ
  states : List S
  modes : List M
  xd_list : List E
  u_list : List E
  Nz_list : List E
  ps_list : List E
  Ny_r_list : List E
  ap : A
  integrator : Integrator S
  cur_sim_time : ℚ

/-- Failures of `simulate_to` itself: the two `assert` statements (lines
92 and 102) and the failed construction assert (line 44), plus the fuel
marker for an unfinished unbounded loop. -/
inductive SimFault where
  | badTargetTime
  | notRunning
  | badInitialState
  | fuelOut
deriving DecidableEq, Repr

/-- Outcome of one iteration of the `while True` loop of `simulate_to`:
either the loop terminates with the given engine state, or it proceeds to
the next iteration with it. -/
inductive LoopRes (S A M E : Type) where
  | halt (est : EngineState S A M E)
  | next (est : EngineState S A M E)

/-- Engine state carried by a loop outcome. -/
def LoopRes.engine : LoopRes S A M E → EngineState S A M E
  | .halt est => est
  | .next est => est

/-- Lines 105-109 of the source: the next desired output sample time
`times[-1] + step`, clamped to `tmax` ("use a small last step") when it
would overshoot and the last recorded time is not already within `tol` of
`tmax`. -/
def nextSampleTime (stepq tmax tol tLast : ℚ) : ℚ :=
  if |tLast - tmax| > tol ∧ tLast + stepq > tmax then tmax else tLast + stepq

/-- Lines 117-121: keep calling `integrator.step()` until the integrator's
internal time goes past the next sample time (within `tol`), or its status
leaves `'running'`.  The loop in the source is unbounded; fuel exhaustion
is reported as a distinguished fault. -/
def advanceIntegrator (cfg : SimConfig S A M E) (nextT tol : ℚ)
    (fuel : ℕ) (intg : Integrator S) : Except SimFault (Integrator S) :=
  if _h : fuel = 0 then .error .fuelOut
  else if nextT ≥ intg.t + tol then
    let intg' := cfg.stepIntegrator intg
    if intg'.status ≠ .running then .ok intg'
    else advanceIntegrator cfg nextT tol (fuel - 1) intg'
  else .ok intg
termination_by fuel
decreasing_by omega

/-- Lines 127-148: append the sample time, the resampled state `x`, the
(already advanced) autopilot's mode, and — when extended-state tracking is
enabled — the recomputed extended-state 5-tuple; the engine's integrator
reference is `intg1`, the integrator that produced the sample. -/
def appendSample (cfg : SimConfig S A M E) (est : EngineState S A M E)
    (nextT : ℚ) (x : S) (apSt1 : A) (intg1 : Integrator S) : EngineState S A M E :=
  let est1 := { est with
    times := est.times ++ [nextT]
    states := est.states ++ [x]
    modes := est.modes ++ [cfg.mode apSt1]
    ap := apSt1
    integrator := intg1 }
  if cfg.extended_states then
    let z := cfg.get_extended_states nextT x apSt1
    { est1 with
      xd_list := est1.xd_list ++ [z.1]
      u_list := est1.u_list ++ [z.2.1]
      Nz_list := est1.Nz_list ++ [z.2.2.1]
      ps_list := est1.ps_list ++ [z.2.2.2.1]
      Ny_r_list := est1.Ny_r_list ++ [z.2.2.2.2] }
  else est1

/-- Lines 129-133: the state recorded at a sample — the integrator's
current internal state when its internal time coincides with the sample
time within `tol`, its dense output at the sample time otherwise. -/
def resampledState (tol nextT : ℚ) (intg1 : Integrator S) : S :=
  if |intg1.t - nextT| < tol then intg1.x else intg1.dense nextT

/-- Lines 126-158: record one sample from the advanced integrator `intg1`
(using its current state when its internal time coincides with the sample
time within `tol`, its dense output otherwise), advance the discrete mode,
append everything, then either stop with `'autopilot finished'` status,
reinitialize the integrator on a mode change, or continue as is. -/
def recordStep (cfg : SimConfig S A M E) (tol nextT : ℚ)
    (est : EngineState S A M E) (intg1 : Integrator S) : LoopRes S A M E :=
  let x := resampledState tol nextT intg1
  let p := cfg.advance_discrete_mode nextT x est.ap
  let est2 := appendSample cfg est nextT x p.1 intg1
  if cfg.is_finished nextT x p.1 then
    .halt { est2 with integrator := { intg1 with status := .autopilotFinished } }
  else if p.2 then
    .next { est2 with integrator := cfg.mkIntegrator nextT x }
  else
    .next est2

/-- One iteration of the `while True` loop of `simulate_to` (lines
104-158): compute the next sample time, stop if it already passes
`tmax + tol`, advance the integrator, stop if its status left `'running'`,
otherwise record the sample. -/
def simStep (cfg : SimConfig S A M E) (tmax tol : ℚ) (inF : ℕ)
    (est : EngineState S A M E) : Except SimFault (LoopRes S A M E) :=
  let nextT := nextSampleTime cfg.step tmax tol (est.times.getLastD 0)
  if nextT ≥ tmax + tol then .ok (.halt est)
  else
    match advanceIntegrator cfg nextT tol inF est.integrator with
    | .error e => .error e
    | .ok intg1 =>
      if intg1.status ≠ .running then .ok (.halt { est with integrator := intg1 })
      else .ok (recordStep cfg tol nextT est intg1)

/-- The `while True` loop of `simulate_to`, iterated with fuel. -/
def simLoop (cfg : SimConfig S A M E) (tmax tol : ℚ) (inF : ℕ)
    (fuel : ℕ) (est : EngineState S A M E) :
    Except SimFault (EngineState S A M E) :=
  if _h : fuel = 0 then .error .fuelOut
  else
    match simStep cfg tmax tol inF est with
    | .error e => .error e
    | .ok (.halt est') => .ok est'
    | .ok (.next est') => simLoop cfg tmax tol inF (fuel - 1) est'
termination_by fuel
decreasing_by omega

/-- `F16SimState.simulate_to(tmax, tol)` (lines 84-163): assert
`tmax >= cur_sim_time`, set `cur_sim_time := tmax`, assert the integrator
is `'running'`, then run the loop.  `fuel` bounds the outer loop and `inF`
the inner integrator-advancing loop; both are artifacts of embedding the
unbounded `while` loops. -/
def simulateTo (cfg : SimConfig S A M E) (fuel inF : ℕ)
    (est : EngineState S A M E) (tmax tol : ℚ) :
    Except SimFault (EngineState S A M E) :=
  if tmax < est.cur_sim_time then .error .badTargetTime
  else if est.integrator.status ≠ .running then .error .notRunning
  else simLoop cfg tmax tol inF fuel { est with cur_sim_time := tmax }

/-! ### Unfolding lemmas for the fueled loops -/

theorem advanceIntegrator_zero (cfg : SimConfig S A M E) (nextT tol : ℚ)
    (intg : Integrator S) :
    advanceIntegrator cfg nextT tol 0 intg = .error .fuelOut := by
  rw [advanceIntegrator, dif_pos rfl]

theorem advanceIntegrator_fuel_pos (cfg : SimConfig S A M E) (nextT tol : ℚ)
    (fuel : ℕ) (intg : Integrator S) (h : fuel ≠ 0) :
    advanceIntegrator cfg nextT tol fuel intg =
      if nextT ≥ intg.t + tol then
        if (cfg.stepIntegrator intg).status ≠ .running then .ok (cfg.stepIntegrator intg)
        else advanceIntegrator cfg nextT tol (fuel - 1) (cfg.stepIntegrator intg)
      else .ok intg := by
  rw [advanceIntegrator, dif_neg h]

theorem simLoop_zero (cfg : SimConfig S A M E) (tmax tol : ℚ) (inF : ℕ)
    (est : EngineState S A M E) :
    simLoop cfg tmax tol inF 0 est = .error .fuelOut := by
  rw [simLoop, dif_pos rfl]

theorem simLoop_fuel_pos (cfg : SimConfig S A M E) (tmax tol : ℚ) (inF fuel : ℕ)
    (est : EngineState S A M E) (h : fuel ≠ 0) :
    simLoop cfg tmax tol inF fuel est =
      match simStep cfg tmax tol inF est with
      | .error e => .error e
      | .ok (.halt est') => .ok est'
      | .ok (.next est') => simLoop cfg tmax tol inF (fuel - 1) est' := by
  rw [simLoop, dif_neg h]

theorem simLoop_of_halt (cfg : SimConfig S A M E) (tmax tol : ℚ) (inF fuel : ℕ)
    (est est' : EngineState S A M E) (h : simStep cfg tmax tol inF est = .ok (.halt est'))
    (hf : fuel ≠ 0) :
    simLoop cfg tmax tol inF fuel est = .ok est' := by
  rw [simLoop_fuel_pos cfg tmax tol inF fuel est hf, h]

theorem simLoop_of_next (cfg : SimConfig S A M E) (tmax tol : ℚ) (inF fuel : ℕ)
    (est est' : EngineState S A M E) (h : simStep cfg tmax tol inF est = .ok (.next est'))
    (hf : fuel ≠ 0) :
    simLoop cfg tmax tol inF fuel est = simLoop cfg tmax tol inF (fuel - 1) est' := by
  rw [simLoop_fuel_pos cfg tmax tol inF fuel est hf, h]

/-! ## A spec-modelled integrator strategy

Modelled from the spec: the concrete strategy classes
(`scipy.integrate.RK45` and `aerobench.util.Euler`) are not part of the
source tree under `src/`; §4.1 of the spec gives their contract.  The
fixed-step Euler strategy is modelled here: constructed from the
derivative function, an initial time/state and an unbounded horizon (the
engine passes `np.inf` on line 77, so the bounded-horizon `'finished'`
transition can never fire); `step()` converts a derivative-function
failure into `'failed'` status — never raising past the boundary — and
otherwise advances by the fixed step with linear dense output. -/

/-- Modelled from the spec: construction of a fixed-step integrator
instance at time `t0` and state `x0` (status `'running'`, degenerate dense
output before the first step). -/
def eulerInit (t0 : ℚ) (x0 : List ℚ) : Integrator (List ℚ) :=
  { t := t0, x := x0, status := .running, dense := fun _ => x0 }

/-- Modelled from the spec: one `step()` of the fixed-step Euler strategy
with step size `h` and derivative function `der`.  A derivative failure
becomes `'failed'` status; otherwise `x` advances by `h * der` and the
dense output is the linear interpolant over the step just taken. -/
def eulerStep (der : ℚ → List ℚ → Except DerFault (List ℚ)) (h : ℚ)
    (intg : Integrator (List ℚ)) : Integrator (List ℚ) :=
  if intg.status ≠ .running then intg
  else
    match der intg.t intg.x with
    | .error _ => { intg with status := .failed }
    | .ok xd =>
      { t := intg.t + h
        x := intg.x.zipWith (fun a b => a + h * b) xd
        status := .running
        dense := fun s => intg.x.zipWith (fun a b => a + (s - intg.t) * b) xd }

/-! ## Engine construction -/

/-- `F16SimState.__init__` (lines 22-82) for a given configuration and
initial autopilot state: pad a short initial state with zeros up to
`num_vars`, assert the (padded) length is an exact multiple of `num_vars`,
record time 0 and the padded state, advance the discrete mode at time 0
(mode may change immediately; the returned flag is ignored), record the
resulting mode, optionally record the initial extended states, and
instantiate the integrator at `(0, x0)`. -/
def mkF16SimState (cfg : SimConfig (List ℚ) A M E) (num_vars : ℕ) (ap0 : A)
    (initial_state : List ℚ) : Except SimFault (EngineState (List ℚ) A M E) :=
  let x0 := if initial_state.length < num_vars
    then initial_state ++ List.replicate (num_vars - initial_state.length) 0
    else initial_state
  if x0.length % num_vars ≠ 0 then .error .badInitialState
  else
    let ap1 := (cfg.advance_discrete_mode 0 x0 ap0).1
    let z := cfg.get_extended_states 0 x0 ap1
    .ok { times := [0]
          states := [x0]
          modes := [cfg.mode ap1]
          xd_list := if cfg.extended_states then [z.1] else []
          u_list := if cfg.extended_states then [z.2.1] else []
          Nz_list := if cfg.extended_states then [z.2.2.1] else []
          ps_list := if cfg.extended_states then [z.2.2.2.1] else []
          Ny_r_list := if cfg.extended_states then [z.2.2.2.2] else []
          ap := ap1
          integrator := cfg.mkIntegrator 0 x0
          cur_sim_time := 0 }

/-! ### Structural lemmas about one loop iteration -/

theorem appendSample_times (cfg : SimConfig S A M E) (est : EngineState S A M E)
    (nextT : ℚ) (x : S) (apSt1 : A) (intg1 : Integrator S) :
    (appendSample cfg est nextT x apSt1 intg1).times = est.times ++ [nextT] := by
  unfold appendSample
  split <;> rfl

theorem appendSample_states (cfg : SimConfig S A M E) (est : EngineState S A M E)
    (nextT : ℚ) (x : S) (apSt1 : A) (intg1 : Integrator S) :
    (appendSample cfg est nextT x apSt1 intg1).states = est.states ++ [x] := by
  unfold appendSample
  split <;> rfl

theorem appendSample_modes (cfg : SimConfig S A M E) (est : EngineState S A M E)
    (nextT : ℚ) (x : S) (apSt1 : A) (intg1 : Integrator S) :
    (appendSample cfg est nextT x apSt1 intg1).modes = est.modes ++ [cfg.mode apSt1] := by
  unfold appendSample
  split <;> rfl

theorem appendSample_ap (cfg : SimConfig S A M E) (est : EngineState S A M E)
    (nextT : ℚ) (x : S) (apSt1 : A) (intg1 : Integrator S) :
    (appendSample cfg est nextT x apSt1 intg1).ap = apSt1 := by
  unfold appendSample
  split <;> rfl

theorem appendSample_integrator (cfg : SimConfig S A M E) (est : EngineState S A M E)
    (nextT : ℚ) (x : S) (apSt1 : A) (intg1 : Integrator S) :
    (appendSample cfg est nextT x apSt1 intg1).integrator = intg1 := by
  unfold appendSample
  split <;> rfl

theorem appendSample_cur (cfg : SimConfig S A M E) (est : EngineState S A M E)
    (nextT : ℚ) (x : S) (apSt1 : A) (intg1 : Integrator S) :
    (appendSample cfg est nextT x apSt1 intg1).cur_sim_time = est.cur_sim_time := by
  unfold appendSample
  split <;> rfl

theorem appendSample_ext_true (cfg : SimConfig S A M E) (est : EngineState S A M E)
    (nextT : ℚ) (x : S) (apSt1 : A) (intg1 : Integrator S)
    (h : cfg.extended_states = true) :
    (appendSample cfg est nextT x apSt1 intg1).xd_list =
      est.xd_list ++ [(cfg.get_extended_states nextT x apSt1).1] ∧
    (appendSample cfg est nextT x apSt1 intg1).u_list =
      est.u_list ++ [(cfg.get_extended_states nextT x apSt1).2.1] ∧
    (appendSample cfg est nextT x apSt1 intg1).Nz_list =
      est.Nz_list ++ [(cfg.get_extended_states nextT x apSt1).2.2.1] ∧
    (appendSample cfg est nextT x apSt1 intg1).ps_list =
      est.ps_list ++ [(cfg.get_extended_states nextT x apSt1).2.2.2.1] ∧
    (appendSample cfg est nextT x apSt1 intg1).Ny_r_list =
      est.Ny_r_list ++ [(cfg.get_extended_states nextT x apSt1).2.2.2.2] := by
  unfold appendSample
  rw [if_pos h]
  exact ⟨rfl, rfl, rfl, rfl, rfl⟩

theorem appendSample_ext_false (cfg : SimConfig S A M E) (est : EngineState S A M E)
    (nextT : ℚ) (x : S) (apSt1 : A) (intg1 : Integrator S)
    (h : cfg.extended_states = false) :
    (appendSample cfg est nextT x apSt1 intg1).xd_list = est.xd_list ∧
    (appendSample cfg est nextT x apSt1 intg1).u_list = est.u_list ∧
    (appendSample cfg est nextT x apSt1 intg1).Nz_list = est.Nz_list ∧
    (appendSample cfg est nextT x apSt1 intg1).ps_list = est.ps_list ∧
    (appendSample cfg est nextT x apSt1 intg1).Ny_r_list = est.Ny_r_list := by
  unfold appendSample
  rw [if_neg (by simp [h])]
  exact ⟨rfl, rfl, rfl, rfl, rfl⟩

/-- Every outcome of `recordStep` carries the engine state obtained from
`appendSample` with a possibly replaced integrator; this inversion lists
the three branches of lines 150-158. -/
theorem recordStep_inv (cfg : SimConfig S A M E) (tol nextT : ℚ)
    (est : EngineState S A M E) (intg1 : Integrator S) :
    (cfg.is_finished nextT (resampledState tol nextT intg1)
        (cfg.advance_discrete_mode nextT (resampledState tol nextT intg1) est.ap).1 = true ∧
      recordStep cfg tol nextT est intg1 =
        .halt { appendSample cfg est nextT (resampledState tol nextT intg1)
            (cfg.advance_discrete_mode nextT (resampledState tol nextT intg1) est.ap).1 intg1 with
          integrator := { intg1 with status := .autopilotFinished } }) ∨
    (cfg.is_finished nextT (resampledState tol nextT intg1)
        (cfg.advance_discrete_mode nextT (resampledState tol nextT intg1) est.ap).1 = false ∧
      (cfg.advance_discrete_mode nextT (resampledState tol nextT intg1) est.ap).2 = true ∧
      recordStep cfg tol nextT est intg1 =
        .next { appendSample cfg est nextT (resampledState tol nextT intg1)
            (cfg.advance_discrete_mode nextT (resampledState tol nextT intg1) est.ap).1 intg1 with
          integrator := cfg.mkIntegrator nextT (resampledState tol nextT intg1) }) ∨
    (cfg.is_finished nextT (resampledState tol nextT intg1)
        (cfg.advance_discrete_mode nextT (resampledState tol nextT intg1) est.ap).1 = false ∧
      (cfg.advance_discrete_mode nextT (resampledState tol nextT intg1) est.ap).2 = false ∧
      recordStep cfg tol nextT est intg1 =
        .next (appendSample cfg est nextT (resampledState tol nextT intg1)
          (cfg.advance_discrete_mode nextT (resampledState tol nextT intg1) est.ap).1 intg1)) := by
  unfold recordStep
  by_cases hfin : cfg.is_finished nextT (resampledState tol nextT intg1)
      (cfg.advance_discrete_mode nextT (resampledState tol nextT intg1) est.ap).1
  · exact Or.inl ⟨hfin, by rw [if_pos hfin]⟩
  · by_cases hmc : (cfg.advance_discrete_mode nextT (resampledState tol nextT intg1) est.ap).2
    · exact Or.inr (Or.inl ⟨by simp [hfin], hmc, by rw [if_neg hfin, if_pos hmc]⟩)
    · exact Or.inr (Or.inr ⟨by simp [hfin], by simp [hmc],
        by rw [if_neg hfin, if_neg hmc]⟩)

/-- The trajectory lists of any `recordStep` outcome extend the previous
ones by exactly the recorded sample. -/
theorem recordStep_engine (cfg : SimConfig S A M E) (tol nextT : ℚ)
    (est : EngineState S A M E) (intg1 : Integrator S) :
    (recordStep cfg tol nextT est intg1).engine.times = est.times ++ [nextT] ∧
    (recordStep cfg tol nextT est intg1).engine.states =
      est.states ++ [resampledState tol nextT intg1] ∧
    (recordStep cfg tol nextT est intg1).engine.modes =
      est.modes ++ [cfg.mode (cfg.advance_discrete_mode nextT
        (resampledState tol nextT intg1) est.ap).1] ∧
    (recordStep cfg tol nextT est intg1).engine.cur_sim_time = est.cur_sim_time := by
  rcases recordStep_inv cfg tol nextT est intg1 with ⟨_, hr⟩ | ⟨_, _, hr⟩ | ⟨_, _, hr⟩ <;>
    rw [hr] <;>
    exact ⟨appendSample_times .., appendSample_states .., appendSample_modes ..,
      appendSample_cur ..⟩

/-! ### Inversion of one outer-loop iteration -/

theorem simStep_break (cfg : SimConfig S A M E) (tmax tol : ℚ) (inF : ℕ)
    (est : EngineState S A M E)
    (hb : nextSampleTime cfg.step tmax tol (est.times.getLastD 0) ≥ tmax + tol) :
    simStep cfg tmax tol inF est = .ok (.halt est) := by
  unfold simStep
  rw [if_pos hb]

theorem simStep_stopped (cfg : SimConfig S A M E) (tmax tol : ℚ) (inF : ℕ)
    (est : EngineState S A M E) (intg1 : Integrator S)
    (hb : ¬ nextSampleTime cfg.step tmax tol (est.times.getLastD 0) ≥ tmax + tol)
    (hadv : advanceIntegrator cfg (nextSampleTime cfg.step tmax tol (est.times.getLastD 0))
      tol inF est.integrator = .ok intg1)
    (hst : intg1.status ≠ .running) :
    simStep cfg tmax tol inF est = .ok (.halt { est with integrator := intg1 }) := by
  unfold simStep
  rw [if_neg hb, hadv]
  dsimp only
  rw [if_pos hst]

theorem simStep_record (cfg : SimConfig S A M E) (tmax tol : ℚ) (inF : ℕ)
    (est : EngineState S A M E) (intg1 : Integrator S)
    (hb : ¬ nextSampleTime cfg.step tmax tol (est.times.getLastD 0) ≥ tmax + tol)
    (hadv : advanceIntegrator cfg (nextSampleTime cfg.step tmax tol (est.times.getLastD 0))
      tol inF est.integrator = .ok intg1)
    (hst : intg1.status = .running) :
    simStep cfg tmax tol inF est =
      .ok (recordStep cfg tol (nextSampleTime cfg.step tmax tol (est.times.getLastD 0))
        est intg1) := by
  unfold simStep
  rw [if_neg hb, hadv]
  dsimp only
  rw [if_neg (by simp [hst])]

/-- Inversion for a successful loop iteration: it either broke on the
sample-time test, stopped because the integrator left `'running'`, or
recorded a sample. -/
theorem simStep_inv (cfg : SimConfig S A M E) (tmax tol : ℚ) (inF : ℕ)
    (est : EngineState S A M E) (r : LoopRes S A M E)
    (h : simStep cfg tmax tol inF est = .ok r) :
    (nextSampleTime cfg.step tmax tol (est.times.getLastD 0) ≥ tmax + tol ∧
      r = .halt est) ∨
    (∃ intg1,
      ¬ nextSampleTime cfg.step tmax tol (est.times.getLastD 0) ≥ tmax + tol ∧
      advanceIntegrator cfg (nextSampleTime cfg.step tmax tol (est.times.getLastD 0))
        tol inF est.integrator = .ok intg1 ∧
      ((intg1.status ≠ .running ∧ r = .halt { est with integrator := intg1 }) ∨
       (intg1.status = .running ∧
        r = recordStep cfg tol (nextSampleTime cfg.step tmax tol (est.times.getLastD 0))
          est intg1))) := by
  unfold simStep at h
  by_cases hb : nextSampleTime cfg.step tmax tol (est.times.getLastD 0) ≥ tmax + tol
  · rw [if_pos hb] at h
    injection h with h'
    exact Or.inl ⟨hb, h'.symm⟩
  · rw [if_neg hb] at h
    cases hadv : advanceIntegrator cfg
        (nextSampleTime cfg.step tmax tol (est.times.getLastD 0)) tol inF est.integrator with
    | error e =>
      rw [hadv] at h
      exact absurd h (by simp)
    | ok intg1 =>
      rw [hadv] at h
      dsimp only at h
      refine Or.inr ⟨intg1, hb, rfl, ?_⟩
      by_cases hst : intg1.status = .running
      · rw [if_neg (by simp [hst])] at h
        injection h with h'
        exact Or.inr ⟨hst, h'.symm⟩
      · rw [if_pos hst] at h
        injection h with h'
        exact Or.inl ⟨hst, h'.symm⟩

/-! ### Concrete engine instances used by witnesses and counterexamples -/

/-- A trivial integrator instance over a `Unit` state space. -/
def unitIntegrator (t0 : ℚ) : Integrator Unit :=
  { t := t0, x := (), status := .running, dense := fun _ => () }

/-- An abstract strategy over `Unit` states advancing time by 1 per step. -/
def cfgUnit : SimConfig Unit Unit Unit Unit :=
  { step := 1
    extended_states := false
    advance_discrete_mode := fun _ _ _ => ((), false)
    mode := fun _ => ()
    is_finished := fun _ _ _ => false
    get_extended_states := fun _ _ _ => ((), (), (), (), ())
    mkIntegrator := fun t _ => unitIntegrator t
    stepIntegrator := fun i =>
      if i.status = .running then unitIntegrator (i.t + 1) else i }

/-- Like `cfgUnit`, but the autopilot reports a mode change at every
`advance_discrete_mode` call. -/
def cfgModeChange : SimConfig Unit Unit Unit Unit :=
  { cfgUnit with advance_discrete_mode := fun _ _ _ => ((), true) }

/-- A freshly constructed `Unit`-state engine at time 0. -/
def estUnit : EngineState Unit Unit Unit Unit :=
  { times := [0], states := [()], modes := [()], xd_list := [], u_list := [],
    Nz_list := [], ps_list := [], Ny_r_list := [], ap := (),
    integrator := unitIntegrator 0, cur_sim_time := 0 }

/-- The embedded derivative evaluator with the zero dynamics model and a
constant checked accessor; it fails on `badAlphaState`. -/
def derFail : ℚ → List ℚ → Except DerFault (List ℚ) := der_func uZero4 f16Zero 0

/-- An engine configuration running the spec-modelled Euler strategy over
`derFail` with unit step. -/
def cfgFail : SimConfig (List ℚ) Unit Unit Unit :=
  { step := 1
    extended_states := false
    advance_discrete_mode := fun _ _ _ => ((), false)
    mode := fun _ => ()
    is_finished := fun _ _ _ => false
    get_extended_states := fun _ _ _ => ((), (), (), (), ())
    mkIntegrator := fun t x => eulerInit t x
    stepIntegrator := eulerStep derFail 1 }

/-- A freshly constructed engine whose recorded state has an out-of-bounds
angle-of-attack, so the first derivative evaluation raises. -/
def estFail : EngineState (List ℚ) Unit Unit Unit :=
  { times := [0], states := [badAlphaState], modes := [()], xd_list := [], u_list := [],
    Nz_list := [], ps_list := [], Ny_r_list := [], ap := (),
    integrator := eulerInit 0 badAlphaState, cur_sim_time := 0 }

/-! ### Claim C8 -/

/-- **C8.** At every recorded sample during `simulate_to`, the appended
state equals the integrator's current internal state when the integrator's
internal time coincides with the desired sample time within the tolerance,
and otherwise equals the dense-output interpolant of the integrator's last
internal step evaluated at the desired sample time.  Stated on one
iteration of the `simulate_to` loop (`simStep`): whenever the iteration
appends a sample, the appended state has exactly this form. -/
theorem recorded_sample_uses_state_or_dense_output
    (cfg : SimConfig S A M E) (tmax tol : ℚ) (inF : ℕ)
    (est : EngineState S A M E) (r : LoopRes S A M E)
    (h : simStep cfg tmax tol inF est = .ok r)
    (hgrow : est.times.length < r.engine.times.length) :
    ∃ intg1,
      advanceIntegrator cfg (nextSampleTime cfg.step tmax tol (est.times.getLastD 0)) tol inF
        est.integrator = .ok intg1 ∧
      intg1.status = .running ∧
      r.engine.times = est.times ++ [nextSampleTime cfg.step tmax tol (est.times.getLastD 0)] ∧
      r.engine.states = est.states ++
        [if |intg1.t - nextSampleTime cfg.step tmax tol (est.times.getLastD 0)| < tol
         then intg1.x
         else intg1.dense (nextSampleTime cfg.step tmax tol (est.times.getLastD 0))] := by
  rcases simStep_inv cfg tmax tol inF est r h with ⟨_, hr⟩ | ⟨intg1, hb, hadv, hcase⟩
  · rw [hr] at hgrow
    exact absurd hgrow (lt_irrefl _)
  · rcases hcase with ⟨hst, hr⟩ | ⟨hst, hr⟩
    · rw [hr] at hgrow
      exact absurd hgrow (lt_irrefl _)
    · obtain ⟨ht, hs, _, _⟩ := recordStep_engine cfg tol
        (nextSampleTime cfg.step tmax tol (est.times.getLastD 0)) est intg1
      refine ⟨intg1, hadv, hst, ?_, ?_⟩
      · rw [hr]
        exact ht
      · rw [hr, hs]
        rfl

/-- Witness for C8: in a unit-state engine the first iteration records the
sample at time 1 with the resampled state. -/
theorem recorded_sample_uses_state_or_dense_output_witness :
    ∃ intg1,
      advanceIntegrator cfgUnit (nextSampleTime cfgUnit.step 1 (1/10000000)
        (estUnit.times.getLastD 0)) (1/10000000) 3 estUnit.integrator = .ok intg1 ∧
      intg1.status = .running ∧
      ((recordStep cfgUnit (1/10000000) (nextSampleTime cfgUnit.step 1 (1/10000000)
          (estUnit.times.getLastD 0)) estUnit intg1 : LoopRes Unit Unit Unit Unit)).engine.times =
        estUnit.times ++ [nextSampleTime cfgUnit.step 1 (1/10000000) (estUnit.times.getLastD 0)] ∧
      ((recordStep cfgUnit (1/10000000) (nextSampleTime cfgUnit.step 1 (1/10000000)
          (estUnit.times.getLastD 0)) estUnit intg1 : LoopRes Unit Unit Unit Unit)).engine.states =
        estUnit.states ++
        [if |intg1.t - nextSampleTime cfgUnit.step 1 (1/10000000) (estUnit.times.getLastD 0)| <
            (1/10000000 : ℚ)
         then intg1.x
         else intg1.dense (nextSampleTime cfgUnit.step 1 (1/10000000) (estUnit.times.getLastD 0))] := by
  have hadv : advanceIntegrator cfgUnit (nextSampleTime cfgUnit.step 1 (1/10000000)
      (estUnit.times.getLastD 0)) (1/10000000) 3 estUnit.integrator =
      .ok (unitIntegrator 1) := by
    norm_num [advanceIntegrator_fuel_pos, cfgUnit, estUnit, unitIntegrator, nextSampleTime,
      abs_lt, lt_abs]
  have h := recorded_sample_uses_state_or_dense_output cfgUnit 1 (1/10000000) 3 estUnit
    (recordStep cfgUnit (1/10000000) (nextSampleTime cfgUnit.step 1 (1/10000000)
      (estUnit.times.getLastD 0)) estUnit (unitIntegrator 1))
    (simStep_record cfgUnit 1 (1/10000000) 3 estUnit (unitIntegrator 1)
      (by norm_num [cfgUnit, estUnit, nextSampleTime, abs_lt, lt_abs]) hadv rfl)
    (by
      obtain ⟨ht, _, _, _⟩ := recordStep_engine cfgUnit (1/10000000)
        (nextSampleTime cfgUnit.step 1 (1/10000000) (estUnit.times.getLastD 0)) estUnit
        (unitIntegrator 1)
      rw [ht]
      simp [estUnit])
  exact h

/-! ### Claim C9 -/

/-- **C9.** Whenever the autopilot's mode-advance reports a mode change at
a newly recorded sample and does not declare completion there, the engine
replaces its integrator with a freshly constructed instance of the stored
strategy (same class, same kwargs and derivative function — the engine's
`mkIntegrator`) whose construction arguments are exactly the just-recorded
time and state. -/
theorem mode_change_reinitializes_integrator
    (cfg : SimConfig S A M E) (tmax tol nextT : ℚ) (inF : ℕ)
    (est : EngineState S A M E) (intg1 : Integrator S) (x : S)
    (hnext : nextT = nextSampleTime cfg.step tmax tol (est.times.getLastD 0))
    (hb : ¬ nextT ≥ tmax + tol)
    (hadv : advanceIntegrator cfg nextT tol inF est.integrator = .ok intg1)
    (hst : intg1.status = .running)
    (hx : x = resampledState tol nextT intg1)
    (hmode : (cfg.advance_discrete_mode nextT x est.ap).2 = true)
    (hfin : cfg.is_finished nextT x (cfg.advance_discrete_mode nextT x est.ap).1 = false) :
    ∃ est', simStep cfg tmax tol inF est = .ok (.next est') ∧
      est'.integrator = cfg.mkIntegrator nextT x ∧
      est'.times = est.times ++ [nextT] ∧
      est'.states = est.states ++ [x] := by
  subst hnext
  subst hx
  have hss := simStep_record cfg tmax tol inF est intg1 hb hadv hst
  rcases recordStep_inv cfg tol
      (nextSampleTime cfg.step tmax tol (est.times.getLastD 0)) est intg1 with
    ⟨hf, _⟩ | ⟨_, _, hr⟩ | ⟨_, hmc, _⟩
  · rw [hfin] at hf
    cases hf
  · refine ⟨_, by rw [hss, hr], rfl, ?_, ?_⟩
    · exact appendSample_times ..
    · exact appendSample_states ..
  · rw [hmode] at hmc
    cases hmc

/-- Witness for C9: a unit-state engine whose autopilot always reports a
mode change gets a fresh integrator seeded at the recorded sample. -/
theorem mode_change_reinitializes_integrator_witness :
    ∃ est', simStep cfgModeChange 1 (1/10000000) 3 estUnit = .ok (.next est') ∧
      est'.integrator = cfgModeChange.mkIntegrator 1 () ∧
      est'.times = estUnit.times ++ [1] ∧
      est'.states = estUnit.states ++ [()] := by
  have hnext : (1 : ℚ) = nextSampleTime cfgModeChange.step 1 (1/10000000)
      (estUnit.times.getLastD 0) := by
    norm_num [cfgModeChange, cfgUnit, estUnit, nextSampleTime, abs_lt, lt_abs]
  have hadv : advanceIntegrator cfgModeChange 1 (1/10000000) 3 estUnit.integrator =
      .ok (unitIntegrator 1) := by
    norm_num [advanceIntegrator_fuel_pos, cfgModeChange, cfgUnit, estUnit, unitIntegrator,
      abs_lt, lt_abs]
  exact mode_change_reinitializes_integrator cfgModeChange 1 (1/10000000) 1 3 estUnit
    (unitIntegrator 1) () hnext (by norm_num) hadv rfl (by simp [resampledState]) rfl rfl

/-! ### Claim C1 -/

theorem eulerStep_failed (der : ℚ → List ℚ → Except DerFault (List ℚ)) (h : ℚ)
    (intg : Integrator (List ℚ)) (e : DerFault)
    (hrun : intg.status = .running) (hder : der intg.t intg.x = .error e) :
    eulerStep der h intg = { intg with status := .failed } := by
  unfold eulerStep
  rw [if_neg (by simp [hrun]), hder]

theorem advanceIntegrator_fail_once (cfg : SimConfig S A M E) (nextT tol : ℚ)
    (inF : ℕ) (intg : Integrator S) (hinF : inF ≠ 0) (hcond : nextT ≥ intg.t + tol)
    (hfail : (cfg.stepIntegrator intg).status ≠ .running) :
    advanceIntegrator cfg nextT tol inF intg = .ok (cfg.stepIntegrator intg) := by
  rw [advanceIntegrator_fuel_pos cfg nextT tol inF intg hinF, if_pos hcond, if_pos hfail]

/-! ### Lemmas about the outer loop -/

theorem simLoop_ok_inv (cfg : SimConfig S A M E) (tmax tol : ℚ) (inF fuel : ℕ)
    (est est' : EngineState S A M E)
    (h : simLoop cfg tmax tol inF fuel est = .ok est') :
    fuel ≠ 0 ∧
    (simStep cfg tmax tol inF est = .ok (.halt est') ∨
     ∃ est2, simStep cfg tmax tol inF est = .ok (.next est2) ∧
       simLoop cfg tmax tol inF (fuel - 1) est2 = .ok est') := by
  have hfuel : fuel ≠ 0 := by
    intro hz
    rw [hz, simLoop_zero] at h
    exact absurd h (by simp)
  refine ⟨hfuel, ?_⟩
  rw [simLoop_fuel_pos cfg tmax tol inF fuel est hfuel] at h
  cases hss : simStep cfg tmax tol inF est with
  | error e =>
    rw [hss] at h
    exact absurd h (by simp)
  | ok r =>
    rw [hss] at h
    cases r with
    | halt e2 =>
      dsimp only at h
      injection h with h'
      exact Or.inl (by rw [h'])
    | next e2 =>
      dsimp only at h
      exact Or.inr ⟨e2, rfl, h⟩

theorem recordStep_halt_status (cfg : SimConfig S A M E) (tol nextT : ℚ)
    (est : EngineState S A M E) (intg1 : Integrator S) (est' : EngineState S A M E)
    (h : recordStep cfg tol nextT est intg1 = .halt est') :
    est'.integrator.status = .autopilotFinished := by
  rcases recordStep_inv cfg tol nextT est intg1 with ⟨_, hr⟩ | ⟨_, _, hr⟩ | ⟨_, _, hr⟩ <;>
    rw [hr] at h
  · injection h with h'
    rw [← h']
  · exact absurd h (by simp)
  · exact absurd h (by simp)

theorem simStep_cur (cfg : SimConfig S A M E) (tmax tol : ℚ) (inF : ℕ)
    (est : EngineState S A M E) (r : LoopRes S A M E)
    (h : simStep cfg tmax tol inF est = .ok r) :
    r.engine.cur_sim_time = est.cur_sim_time := by
  rcases simStep_inv cfg tmax tol inF est r h with ⟨_, hr⟩ | ⟨intg1, _, _, hcase⟩
  · subst hr
    rfl
  · rcases hcase with ⟨_, hr⟩ | ⟨_, hr⟩
    · subst hr
      rfl
    · subst hr
      exact (recordStep_engine cfg tol _ est intg1).2.2.2

theorem simLoop_cur (cfg : SimConfig S A M E) (tmax tol : ℚ) (inF : ℕ) :
    ∀ fuel (est est' : EngineState S A M E),
      simLoop cfg tmax tol inF fuel est = .ok est' →
      est'.cur_sim_time = est.cur_sim_time := by
  intro fuel
  induction fuel using Nat.strong_induction_on with
  | _ fuel ih =>
    intro est est' h
    obtain ⟨hfuel, hcase⟩ := simLoop_ok_inv cfg tmax tol inF fuel est est' h
    rcases hcase with hss | ⟨est2, hss, hrest⟩
    · exact simStep_cur cfg tmax tol inF est (.halt est') hss
    · have h2 := ih (fuel - 1) (by omega) est2 est' hrest
      have h1 : est2.cur_sim_time = est.cur_sim_time :=
        simStep_cur cfg tmax tol inF est (.next est2) hss
      rw [h2, h1]

/-- When the loop returns with the integrator still `'running'`, its last
iteration exited through the sample-time break, so the break condition
holds at the final engine state. -/
theorem simLoop_running_break (cfg : SimConfig S A M E) (tmax tol : ℚ) (inF : ℕ) :
    ∀ fuel (est est' : EngineState S A M E),
      simLoop cfg tmax tol inF fuel est = .ok est' →
      est'.integrator.status = .running →
      nextSampleTime cfg.step tmax tol (est'.times.getLastD 0) ≥ tmax + tol := by
  intro fuel
  induction fuel using Nat.strong_induction_on with
  | _ fuel ih =>
    intro est est' h hrun
    obtain ⟨hfuel, hcase⟩ := simLoop_ok_inv cfg tmax tol inF fuel est est' h
    rcases hcase with hss | ⟨est2, hss, hrest⟩
    · rcases simStep_inv cfg tmax tol inF est _ hss with ⟨hb, hr⟩ | ⟨intg1, hb, hadv, hc⟩
      · injection hr with hr'
        subst hr'
        exact hb
      · rcases hc with ⟨hst, hr⟩ | ⟨hst, hr⟩
        · injection hr with hr'
          subst hr'
          exact absurd hrun hst
        · have := recordStep_halt_status cfg tol _ est intg1 est' hr.symm
          rw [hrun] at this
          cases this
    · exact ih (fuel - 1) (by omega) est2 est' hrest hrun

/-- One successful loop iteration only ever appends to the trajectory
lists. -/
theorem simStep_extends (cfg : SimConfig S A M E) (tmax tol : ℚ) (inF : ℕ)
    (est : EngineState S A M E) (r : LoopRes S A M E)
    (h : simStep cfg tmax tol inF est = .ok r) :
    ∃ ts ss ms, r.engine.times = est.times ++ ts ∧
      r.engine.states = est.states ++ ss ∧ r.engine.modes = est.modes ++ ms := by
  rcases simStep_inv cfg tmax tol inF est r h with ⟨_, hr⟩ | ⟨intg1, _, _, hcase⟩
  · subst hr
    exact ⟨[], [], [], by simp [LoopRes.engine], by simp [LoopRes.engine],
      by simp [LoopRes.engine]⟩
  · rcases hcase with ⟨_, hr⟩ | ⟨_, hr⟩
    · subst hr
      exact ⟨[], [], [], by simp [LoopRes.engine], by simp [LoopRes.engine],
        by simp [LoopRes.engine]⟩
    · subst hr
      obtain ⟨ht, hs, hm, _⟩ := recordStep_engine cfg tol
        (nextSampleTime cfg.step tmax tol (est.times.getLastD 0)) est intg1
      exact ⟨_, _, _, ht, hs, hm⟩

/-- The whole loop only ever appends to the trajectory lists. -/
theorem simLoop_extends (cfg : SimConfig S A M E) (tmax tol : ℚ) (inF : ℕ) :
    ∀ fuel (est est' : EngineState S A M E),
      simLoop cfg tmax tol inF fuel est = .ok est' →
      ∃ ts ss ms, est'.times = est.times ++ ts ∧
        est'.states = est.states ++ ss ∧ est'.modes = est.modes ++ ms := by
  intro fuel
  induction fuel using Nat.strong_induction_on with
  | _ fuel ih =>
    intro est est' h
    obtain ⟨hfuel, hcase⟩ := simLoop_ok_inv cfg tmax tol inF fuel est est' h
    rcases hcase with hss | ⟨est2, hss, hrest⟩
    · exact simStep_extends cfg tmax tol inF est (.halt est') hss
    · obtain ⟨t1, s1, m1, ht1, hs1, hm1⟩ := simStep_extends cfg tmax tol inF est
        (.next est2) hss
      dsimp only [LoopRes.engine] at ht1 hs1 hm1
      obtain ⟨t2, s2, m2, ht2, hs2, hm2⟩ := ih (fuel - 1) (by omega) est2 est' hrest
      exact ⟨t1 ++ t2, s1 ++ s2, m1 ++ m2,
        by rw [ht2, ht1, List.append_assoc],
        by rw [hs2, hs1, List.append_assoc],
        by rw [hm2, hm1, List.append_assoc]⟩

/-! ### Claim C1 -/

/-- **C1.** When a derivative evaluation raises a model-domain error
during a step, `simulate_to` returns normally (an `.ok` result, never an
exception) with the integrator status `'failed'` and every
already-recorded trajectory sample preserved.  Part one: any successful
`simulate_to` call only appends to the recorded lists, so everything
already recorded is preserved.  Part two: when the derivative evaluation
fails at the integrator's current point, the call returns `.ok` with
status `'failed'` and the lists exactly unchanged.  The step-failure
containment itself lives in the spec-modelled integrator strategy
(`eulerStep`, §4.1), since the concrete integrator classes are outside
`src/`; the engine loop from the source then turns the failed status into
a clean stop. -/
theorem simulate_to_model_error_contained
    (cfg : SimConfig (List ℚ) A M E) (der : ℚ → List ℚ → Except DerFault (List ℚ))
    (h : ℚ) (hcfg : cfg.stepIntegrator = eulerStep der h) :
    (∀ (fuel inF : ℕ) (est est' : EngineState (List ℚ) A M E) (tmax tol : ℚ),
      simulateTo cfg fuel inF est tmax tol = .ok est' →
      ∃ ts ss ms, est'.times = est.times ++ ts ∧
        est'.states = est.states ++ ss ∧ est'.modes = est.modes ++ ms) ∧
    (∀ (fuel inF : ℕ) (est : EngineState (List ℚ) A M E) (tmax tol : ℚ) (e : DerFault),
      der est.integrator.t est.integrator.x = .error e →
      est.integrator.status = .running →
      ¬ tmax < est.cur_sim_time →
      fuel ≠ 0 → inF ≠ 0 →
      ¬ nextSampleTime cfg.step tmax tol (est.times.getLastD 0) ≥ tmax + tol →
      nextSampleTime cfg.step tmax tol (est.times.getLastD 0) ≥
        est.integrator.t + tol →
      simulateTo cfg fuel inF est tmax tol =
        .ok { est with cur_sim_time := tmax,
                       integrator := { est.integrator with status := .failed } }) := by
  constructor
  · intro fuel inF est est' tmax tol hok
    unfold simulateTo at hok
    by_cases ha : tmax < est.cur_sim_time
    · rw [if_pos ha] at hok
      exact absurd hok (by simp)
    rw [if_neg ha] at hok
    by_cases hs : est.integrator.status ≠ .running
    · rw [if_pos hs] at hok
      exact absurd hok (by simp)
    rw [if_neg hs] at hok
    obtain ⟨ts, ss, ms, h1, h2, h3⟩ := simLoop_extends cfg tmax tol inF fuel
      { est with cur_sim_time := tmax } est' hok
    exact ⟨ts, ss, ms, h1, h2, h3⟩
  · intro fuel inF est tmax tol e hder hrun htmax hfuel hinF hb hreach
    have hfailstep : cfg.stepIntegrator est.integrator =
        { est.integrator with status := .failed } := by
      rw [hcfg]
      exact eulerStep_failed der h est.integrator e hrun hder
    have hadv : advanceIntegrator cfg
        (nextSampleTime cfg.step tmax tol (est.times.getLastD 0)) tol inF
        est.integrator = .ok { est.integrator with status := .failed } := by
      rw [← hfailstep]
      exact advanceIntegrator_fail_once cfg _ tol inF est.integrator hinF hreach
        (by rw [hfailstep]; simp)
    have hss := simStep_stopped cfg tmax tol inF { est with cur_sim_time := tmax }
      { est.integrator with status := .failed } hb hadv (by simp)
    unfold simulateTo
    rw [if_neg htmax, if_neg (by simp [hrun])]
    rw [simLoop_of_halt cfg tmax tol inF fuel _ _ hss hfuel]

/-- Witness for C1: the first step on the out-of-bounds angle-of-attack
state fails and `simulate_to` returns `.ok` with `'failed'` status and the
trajectory untouched. -/
theorem simulate_to_model_error_contained_witness :
    simulateTo cfgFail 2 2 estFail 1 (1/10000000) =
      .ok { estFail with cur_sim_time := 1,
                         integrator := { estFail.integrator with status := .failed } } :=
  (simulate_to_model_error_contained cfgFail derFail 1 rfl).2 2 2 estFail 1 (1/10000000)
    (.simModelError .alpha 3) (by decide) rfl (by norm_num [estFail])
    (by norm_num) (by norm_num)
    (by norm_num [cfgFail, estFail, nextSampleTime, abs_lt, lt_abs])
    (by norm_num [cfgFail, estFail, eulerInit, nextSampleTime, abs_lt, lt_abs])

/-! ### Claim C7 -/

/-- **C7.** Calling `simulate_to(T)` immediately after a completed
`simulate_to(T)` with the same `T`, on an engine whose integrator status is
`'running'`, is idempotent: the engine state (all trajectory lists, the
status, `cur_sim_time`) is returned unchanged — the loop breaks before
recording anything. -/
theorem simulate_to_idempotent
    (cfg : SimConfig S A M E) (est est1 : EngineState S A M E) (T tol : ℚ)
    (f1 inF f2 inF2 : ℕ)
    (h1 : simulateTo cfg f1 inF est T tol = .ok est1)
    (hrun : est1.integrator.status = .running)
    (hf2 : f2 ≠ 0) :
    simulateTo cfg f2 inF2 est1 T tol = .ok est1 := by
  unfold simulateTo at h1
  by_cases ha : T < est.cur_sim_time
  · rw [if_pos ha] at h1
    exact absurd h1 (by simp)
  rw [if_neg ha] at h1
  by_cases hs : est.integrator.status ≠ .running
  · rw [if_pos hs] at h1
    exact absurd h1 (by simp)
  rw [if_neg hs] at h1
  have hcur : est1.cur_sim_time = T := by
    simpa using simLoop_cur cfg T tol inF f1 _ est1 h1
  have hbreak := simLoop_running_break cfg T tol inF f1 _ est1 h1 hrun
  unfold simulateTo
  rw [if_neg (by rw [hcur]; exact lt_irrefl T)]
  rw [if_neg (by simp [hrun])]
  have hest1 : { est1 with cur_sim_time := T } = est1 := by
    rw [← hcur]
  rw [hest1]
  exact simLoop_of_halt cfg T tol inF2 f2 est1 est1
    (simStep_break cfg T tol inF2 est1 hbreak) hf2

/-- The unit-state engine after one recorded sample at time 1. -/
def estUnitAfter1 : EngineState Unit Unit Unit Unit :=
  { times := [0, 1], states := [(), ()], modes := [(), ()], xd_list := [], u_list := [],
    Nz_list := [], ps_list := [], Ny_r_list := [], ap := (),
    integrator := unitIntegrator 1, cur_sim_time := 1 }

/-- Witness for C7: after simulating the unit-state engine to time 1, a
second `simulate_to(1)` returns the engine unchanged. -/
theorem simulate_to_idempotent_witness :
    simulateTo cfgUnit 3 3 estUnit 1 (1/10000000) = .ok estUnitAfter1 ∧
    simulateTo cfgUnit 1 1 estUnitAfter1 1 (1/10000000) = .ok estUnitAfter1 := by
  have h1 : simulateTo cfgUnit 3 3 estUnit 1 (1/10000000) = .ok estUnitAfter1 := by
    norm_num [simulateTo, simLoop_fuel_pos, simStep, nextSampleTime, recordStep,
      resampledState, appendSample, advanceIntegrator_fuel_pos, cfgUnit, estUnit,
      estUnitAfter1, unitIntegrator, abs_lt, lt_abs]
  exact ⟨h1, simulate_to_idempotent cfgUnit estUnit estUnitAfter1 1 (1/10000000) 3 3 1 1
    h1 rfl (by norm_num)⟩

/-! ### Claim C4: trajectory invariants -/

/-- The trajectory part of the engine invariant: `times`, `states`, `modes`
have equal length (and the five extended lists too when tracking is
enabled), `times` is nonempty, starts at 0, and is strictly increasing. -/
def TrajInv (cfg : SimConfig S A M E) (est : EngineState S A M E) : Prop :=
  est.times ≠ [] ∧
  est.times.headD 1 = 0 ∧
  est.times.Chain' (· < ·) ∧
  est.times.length = est.states.length ∧
  est.times.length = est.modes.length ∧
  (cfg.extended_states = true →
    est.xd_list.length = est.times.length ∧
    est.u_list.length = est.times.length ∧
    est.Nz_list.length = est.times.length ∧
    est.ps_list.length = est.times.length ∧
    est.Ny_r_list.length = est.times.length)

/-- The full engine invariant: `TrajInv` plus the bound relating the last
recorded time to `cur_sim_time` (recorded samples never pass the requested
horizon by `tol` or more), which makes the invariant inductive across
repeated `simulate_to` calls with the same tolerance. -/
def EngineInv (cfg : SimConfig S A M E) (tol : ℚ) (est : EngineState S A M E) : Prop :=
  TrajInv cfg est ∧ est.times.getLastD 0 < est.cur_sim_time + tol

theorem headD_append_of_ne_nil (l l' : List ℚ) (d : ℚ) (h : l ≠ []) :
    (l ++ l').headD d = l.headD d := by
  cases l with
  | nil => exact absurd rfl h
  | cons a t => rfl

theorem chain_lt_append_singleton (l : List ℚ) (a : ℚ)
    (hc : l.Chain' (· < ·)) (hne : l ≠ []) (ha : l.getLastD 0 < a) :
    (l ++ [a]).Chain' (· < ·) := by
  rw [List.chain'_append]
  refine ⟨hc, List.chain'_singleton a, ?_⟩
  intro x hx y hy
  cases hl : l.getLast? with
  | none => exact absurd (List.getLast?_eq_none_iff.mp hl) hne
  | some b =>
    rw [hl] at hx
    simp only [Option.mem_def, Option.some.injEq] at hx
    simp only [List.head?_cons, Option.mem_def, Option.some.injEq] at hy
    subst hx
    subst hy
    rw [List.getLastD_eq_getLast?, hl] at ha
    exact ha

/-- The extended lists of any `recordStep` outcome are those of its
`appendSample`. -/
theorem recordStep_engine_lists (cfg : SimConfig S A M E) (tol nextT : ℚ)
    (est : EngineState S A M E) (intg1 : Integrator S) :
    (recordStep cfg tol nextT est intg1).engine.xd_list =
      (appendSample cfg est nextT (resampledState tol nextT intg1)
        (cfg.advance_discrete_mode nextT (resampledState tol nextT intg1) est.ap).1
        intg1).xd_list ∧
    (recordStep cfg tol nextT est intg1).engine.u_list =
      (appendSample cfg est nextT (resampledState tol nextT intg1)
        (cfg.advance_discrete_mode nextT (resampledState tol nextT intg1) est.ap).1
        intg1).u_list ∧
    (recordStep cfg tol nextT est intg1).engine.Nz_list =
      (appendSample cfg est nextT (resampledState tol nextT intg1)
        (cfg.advance_discrete_mode nextT (resampledState tol nextT intg1) est.ap).1
        intg1).Nz_list ∧
    (recordStep cfg tol nextT est intg1).engine.ps_list =
      (appendSample cfg est nextT (resampledState tol nextT intg1)
        (cfg.advance_discrete_mode nextT (resampledState tol nextT intg1) est.ap).1
        intg1).ps_list ∧
    (recordStep cfg tol nextT est intg1).engine.Ny_r_list =
      (appendSample cfg est nextT (resampledState tol nextT intg1)
        (cfg.advance_discrete_mode nextT (resampledState tol nextT intg1) est.ap).1
        intg1).Ny_r_list := by
  rcases recordStep_inv cfg tol nextT est intg1 with ⟨_, hr⟩ | ⟨_, _, hr⟩ | ⟨_, _, hr⟩ <;>
    rw [hr] <;> exact ⟨rfl, rfl, rfl, rfl, rfl⟩

/-- One successful loop iteration preserves the trajectory invariant and
keeps the last recorded time below `tmax + tol`. -/
theorem simStep_traj_inv (cfg : SimConfig S A M E) (tmax tol : ℚ) (inF : ℕ)
    (est : EngineState S A M E) (r : LoopRes S A M E)
    (hstep : 0 < cfg.step) (htol : 0 < tol)
    (h : simStep cfg tmax tol inF est = .ok r)
    (hinv : TrajInv cfg est) (hlast : est.times.getLastD 0 < tmax + tol) :
    TrajInv cfg r.engine ∧ r.engine.times.getLastD 0 < tmax + tol := by
  rcases simStep_inv cfg tmax tol inF est r h with ⟨_, hr⟩ | ⟨intg1, hb, _, hcase⟩
  · subst hr
    exact ⟨hinv, hlast⟩
  · rcases hcase with ⟨_, hr⟩ | ⟨_, hr⟩
    · subst hr
      exact ⟨hinv, hlast⟩
    · subst hr
      obtain ⟨hne, hhead, hchain, hls, hlm, hext⟩ := hinv
      obtain ⟨ht, hs, hm, _⟩ := recordStep_engine cfg tol
        (nextSampleTime cfg.step tmax tol (est.times.getLastD 0)) est intg1
      have hnb : nextSampleTime cfg.step tmax tol (est.times.getLastD 0) < tmax + tol :=
        lt_of_not_ge hb
      have hgt : est.times.getLastD 0 <
          nextSampleTime cfg.step tmax tol (est.times.getLastD 0) := by
        unfold nextSampleTime
        by_cases hcl : |est.times.getLastD 0 - tmax| > tol ∧
            est.times.getLastD 0 + cfg.step > tmax
        · rw [if_pos hcl]
          rcases lt_abs.mp hcl.1 with hgt' | hgt'
          · linarith
          · linarith
        · rw [if_neg hcl]
          linarith
      have hlastnew : ((recordStep cfg tol
          (nextSampleTime cfg.step tmax tol (est.times.getLastD 0)) est
          intg1).engine.times).getLastD 0 =
          nextSampleTime cfg.step tmax tol (est.times.getLastD 0) := by
        rw [ht, List.getLastD_concat]
      refine ⟨⟨?_, ?_, ?_, ?_, ?_, ?_⟩, by rw [hlastnew]; exact hnb⟩
      · rw [ht]
        simp
      · rw [ht, headD_append_of_ne_nil _ _ _ hne, hhead]
      · rw [ht]
        exact chain_lt_append_singleton _ _ hchain hne hgt
      · rw [ht, hs]
        simp only [List.length_append, List.length_cons, List.length_nil]
        omega
      · rw [ht, hm]
        simp only [List.length_append, List.length_cons, List.length_nil]
        omega
      · intro hflag
        obtain ⟨e1, e2, e3, e4, e5⟩ := recordStep_engine_lists cfg tol
          (nextSampleTime cfg.step tmax tol (est.times.getLastD 0)) est intg1
        obtain ⟨a1, a2, a3, a4, a5⟩ := appendSample_ext_true cfg est
          (nextSampleTime cfg.step tmax tol (est.times.getLastD 0))
          (resampledState tol (nextSampleTime cfg.step tmax tol (est.times.getLastD 0)) intg1)
          (cfg.advance_discrete_mode (nextSampleTime cfg.step tmax tol (est.times.getLastD 0))
            (resampledState tol (nextSampleTime cfg.step tmax tol (est.times.getLastD 0)) intg1)
            est.ap).1 intg1 hflag
        obtain ⟨x1, x2, x3, x4, x5⟩ := hext hflag
        refine ⟨?_, ?_, ?_, ?_, ?_⟩ <;>
          simp only [e1, e2, e3, e4, e5, a1, a2, a3, a4, a5, ht, List.length_append,
            List.length_cons, List.length_nil] <;>
          omega

/-- The loop preserves the trajectory invariant. -/
theorem simLoop_traj_inv (cfg : SimConfig S A M E) (tmax tol : ℚ) (inF : ℕ)
    (hstep : 0 < cfg.step) (htol : 0 < tol) :
    ∀ fuel (est est' : EngineState S A M E),
      simLoop cfg tmax tol inF fuel est = .ok est' →
      TrajInv cfg est → est.times.getLastD 0 < tmax + tol →
      TrajInv cfg est' ∧ est'.times.getLastD 0 < tmax + tol := by
  intro fuel
  induction fuel using Nat.strong_induction_on with
  | _ fuel ih =>
    intro est est' h hinv hlast
    obtain ⟨hfuel, hcase⟩ := simLoop_ok_inv cfg tmax tol inF fuel est est' h
    rcases hcase with hss | ⟨est2, hss, hrest⟩
    · exact simStep_traj_inv cfg tmax tol inF est (.halt est') hstep htol hss hinv hlast
    · obtain ⟨hinv2, hlast2⟩ := simStep_traj_inv cfg tmax tol inF est (.next est2)
        hstep htol hss hinv hlast
      exact ih (fuel - 1) (by omega) est2 est' hrest hinv2 hlast2

/-- **C4.** After construction and after every successful `simulate_to`
call with tolerance `tol`, the engine satisfies:
`len(times) = len(states) = len(modes)` (and the five extended lists have
that same length when extended-state tracking is enabled), and `times`
starts at 0 and is strictly increasing. -/
theorem engine_trajectory_invariants
    (cfg : SimConfig (List ℚ) A M E) (num_vars : ℕ) (ap0 : A) (init : List ℚ)
    (est0 : EngineState (List ℚ) A M E) (tol : ℚ)
    (hstep : 0 < cfg.step) (htol : 0 < tol)
    (hmk : mkF16SimState cfg num_vars ap0 init = .ok est0) :
    EngineInv cfg tol est0 ∧
    ∀ (est est' : EngineState (List ℚ) A M E) (tmax : ℚ) (fuel inF : ℕ),
      EngineInv cfg tol est →
      simulateTo cfg fuel inF est tmax tol = .ok est' →
      EngineInv cfg tol est' := by
  constructor
  · unfold mkF16SimState at hmk
    split at hmk <;>
      (dsimp only at hmk
       split at hmk
       · exact absurd hmk (by simp)
       · injection hmk with hmk'
         subst hmk'
         refine ⟨⟨by simp, rfl, List.chain'_singleton 0, rfl, rfl, ?_⟩, by simpa using htol⟩
         intro hflag
         simp only [if_pos hflag]
         exact ⟨rfl, rfl, rfl, rfl, rfl⟩)
  · intro est est' tmax fuel inF hinv hrun
    unfold simulateTo at hrun
    by_cases ha : tmax < est.cur_sim_time
    · rw [if_pos ha] at hrun
      exact absurd hrun (by simp)
    rw [if_neg ha] at hrun
    by_cases hs : est.integrator.status ≠ .running
    · rw [if_pos hs] at hrun
      exact absurd hrun (by simp)
    rw [if_neg hs] at hrun
    obtain ⟨hinv1, hlast1⟩ := hinv
    have hentry : ({ est with cur_sim_time := tmax } :
        EngineState (List ℚ) A M E).times.getLastD 0 < tmax + tol := by
      have : est.cur_sim_time ≤ tmax := not_lt.mp ha
      show est.times.getLastD 0 < tmax + tol
      linarith
    obtain ⟨hinv', hlast'⟩ := simLoop_traj_inv cfg tmax tol inF hstep htol fuel
      { est with cur_sim_time := tmax } est' hrun hinv1 hentry
    have hcur' : est'.cur_sim_time = tmax := by
      simpa using simLoop_cur cfg tmax tol inF fuel _ est' hrun
    exact ⟨hinv', by rw [hcur']; exact hlast'⟩

/-- The engine constructed by `mkF16SimState cfgFail 13 () nominalState`. -/
def est0Fail : EngineState (List ℚ) Unit Unit Unit :=
  { times := [0], states := [nominalState], modes := [()], xd_list := [], u_list := [],
    Nz_list := [], ps_list := [], Ny_r_list := [], ap := (),
    integrator := eulerInit 0 nominalState, cur_sim_time := 0 }

/-- Witness for C4 at a concrete constructed engine. -/
theorem engine_trajectory_invariants_witness :
    EngineInv cfgFail (1/10000000) est0Fail ∧
    ∀ (est est' : EngineState (List ℚ) Unit Unit Unit) (tmax : ℚ) (fuel inF : ℕ),
      EngineInv cfgFail (1/10000000) est →
      simulateTo cfgFail fuel inF est tmax (1/10000000) = .ok est' →
      EngineInv cfgFail (1/10000000) est' :=
  engine_trajectory_invariants cfgFail 13 () nominalState est0Fail (1/10000000)
    (by norm_num [cfgFail]) (by norm_num) rfl

/-! ### Claim C3: incremental simulation

`simulate_to` writes `cur_sim_time` before entering the loop; the loop
itself never reads it.  The following `setCur` machinery makes that
precise, so runs with different targets can be compared. -/

/-- Overwrite `cur_sim_time`, as line 93 of the source does. -/
def setCur (est : EngineState S A M E) (U : ℚ) : EngineState S A M E :=
  { est with cur_sim_time := U }

/-- Push `setCur` under a loop outcome. -/
def LoopRes.withCur : LoopRes S A M E → ℚ → LoopRes S A M E
  | .halt e, U => .halt (setCur e U)
  | .next e, U => .next (setCur e U)

theorem appendSample_setCur (cfg : SimConfig S A M E) (est : EngineState S A M E)
    (nextT : ℚ) (x : S) (apSt1 : A) (intg1 : Integrator S) (U : ℚ) :
    appendSample cfg (setCur est U) nextT x apSt1 intg1 =
      setCur (appendSample cfg est nextT x apSt1 intg1) U := by
  cases est
  unfold appendSample setCur
  dsimp only
  split <;> rfl

theorem recordStep_setCur (cfg : SimConfig S A M E) (tol nextT : ℚ)
    (est : EngineState S A M E) (intg1 : Integrator S) (U : ℚ) :
    recordStep cfg tol nextT (setCur est U) intg1 =
      (recordStep cfg tol nextT est intg1).withCur U := by
  cases est
  unfold recordStep setCur appendSample LoopRes.withCur
  dsimp only
  split
  · split <;> rfl
  · split
    · split <;> rfl
    · split <;> rfl

theorem simStep_setCur (cfg : SimConfig S A M E) (T tol : ℚ) (inF : ℕ)
    (est : EngineState S A M E) (U : ℚ) :
    simStep cfg T tol inF (setCur est U) =
      (simStep cfg T tol inF est).map (fun r => r.withCur U) := by
  unfold simStep
  rw [show (setCur est U).times = est.times from rfl,
    show (setCur est U).integrator = est.integrator from rfl]
  by_cases hb : nextSampleTime cfg.step T tol (est.times.getLastD 0) ≥ T + tol
  · rw [if_pos hb, if_pos hb]
    rfl
  · rw [if_neg hb, if_neg hb]
    cases hadv : advanceIntegrator cfg (nextSampleTime cfg.step T tol (est.times.getLastD 0))
        tol inF est.integrator with
    | error e => rfl
    | ok intg1 =>
      dsimp only
      by_cases hst : intg1.status ≠ .running
      · rw [if_pos hst, if_pos hst]
        rfl
      · rw [if_neg hst, if_neg hst, recordStep_setCur]
        cases recordStep cfg tol (nextSampleTime cfg.step T tol (est.times.getLastD 0))
            est intg1 <;> rfl

theorem simLoop_setCur (cfg : SimConfig S A M E) (T tol : ℚ) (inF : ℕ) :
    ∀ fuel (est : EngineState S A M E) (U : ℚ),
      simLoop cfg T tol inF fuel (setCur est U) =
        (simLoop cfg T tol inF fuel est).map (fun e => setCur e U) := by
  intro fuel
  induction fuel using Nat.strong_induction_on with
  | _ fuel ih =>
    intro est U
    rcases Nat.eq_zero_or_pos fuel with hz | hpos
    · subst hz
      rw [simLoop_zero, simLoop_zero]
      rfl
    · rw [simLoop_fuel_pos cfg T tol inF fuel _ (by omega),
        simLoop_fuel_pos cfg T tol inF fuel est (by omega), simStep_setCur]
      cases h : simStep cfg T tol inF est with
      | error e => rfl
      | ok r =>
        cases r with
        | halt e => rfl
        | next e =>
          dsimp only [LoopRes.withCur, Except.map]
          exact ih (fuel - 1) (by omega) e U

/-- More fuel never changes a successful loop run. -/
theorem simLoop_mono (cfg : SimConfig S A M E) (tmax tol : ℚ) (inF : ℕ) :
    ∀ fuel fuel' (est r : EngineState S A M E),
      simLoop cfg tmax tol inF fuel est = .ok r → fuel ≤ fuel' →
      simLoop cfg tmax tol inF fuel' est = .ok r := by
  intro fuel
  induction fuel using Nat.strong_induction_on with
  | _ fuel ih =>
    intro fuel' est r h hle
    obtain ⟨hfuel, hcase⟩ := simLoop_ok_inv cfg tmax tol inF fuel est r h
    have hfuel' : fuel' ≠ 0 := by omega
    rcases hcase with hss | ⟨est2, hss, hrest⟩
    · exact simLoop_of_halt cfg tmax tol inF fuel' est r hss hfuel'
    · rw [simLoop_of_next cfg tmax tol inF fuel' est est2 hss hfuel']
      exact ih (fuel - 1) (by omega) (fuel' - 1) est2 r hrest (by omega)

/-! Grid arithmetic for the sample-time computation. -/

/-- When the target is exactly the last recorded time (`n = 0` grid
steps away), the loop breaks immediately. -/
theorem nextSampleTime_break_at_target (s tol c : ℚ) (htol : 0 < tol) (hs : tol ≤ s) :
    nextSampleTime s c tol c ≥ c + tol := by
  unfold nextSampleTime
  rw [if_neg (by simp [htol, abs_lt]; intro h; linarith)]
  linarith

/-- With the target still `n ≥ 1` grid steps ahead, no clamping happens and
no break: the next sample time is exactly one step further. -/
theorem nextSampleTime_grid (s tol c T : ℚ) (n : ℕ) (htol : 0 < tol) (hs : tol ≤ s)
    (hn : n ≠ 0) (hgrid : T = c + n * s) :
    nextSampleTime s T tol c = c + s ∧ ¬ nextSampleTime s T tol c ≥ T + tol := by
  have hn1 : (1 : ℚ) ≤ (n : ℚ) := by exact_mod_cast Nat.one_le_iff_ne_zero.mpr hn
  have hspos : 0 < s := lt_of_lt_of_le htol hs
  have hns : s ≤ (n : ℚ) * s := le_mul_of_one_le_left hspos.le hn1
  have heq : nextSampleTime s T tol c = c + s := by
    unfold nextSampleTime
    rw [if_neg]
    intro hcl
    have := hcl.2
    rw [hgrid] at this
    linarith
  refine ⟨heq, ?_⟩
  rw [heq, hgrid]
  intro hb
  linarith

/-- Same, but for any larger target `T2 ≥ T`: the computed sample time and
the break test agree with the run towards `T`. -/
theorem nextSampleTime_grid_larger (s tol c T T2 : ℚ) (n : ℕ) (htol : 0 < tol)
    (hs : tol ≤ s) (hn : n ≠ 0) (hgrid : T = c + n * s) (hT2 : T ≤ T2) :
    nextSampleTime s T2 tol c = c + s ∧ ¬ nextSampleTime s T2 tol c ≥ T2 + tol := by
  have hn1 : (1 : ℚ) ≤ (n : ℚ) := by exact_mod_cast Nat.one_le_iff_ne_zero.mpr hn
  have hspos : 0 < s := lt_of_lt_of_le htol hs
  have hns : s ≤ (n : ℚ) * s := le_mul_of_one_le_left hspos.le hn1
  have hcs : c + s ≤ T2 := by
    rw [hgrid] at hT2
    linarith
  have heq : nextSampleTime s T2 tol c = c + s := by
    unfold nextSampleTime
    rw [if_neg]
    intro hcl
    exact absurd hcl.2 (not_lt.mpr hcs)
  refine ⟨heq, ?_⟩
  rw [heq]
  intro hb
  linarith

/-- One loop iteration does not depend on the target time while the next
grid point is strictly inside both horizons. -/
theorem simStep_swap_target (cfg : SimConfig S A M E) (T1 T2 tol : ℚ) (inF : ℕ)
    (est : EngineState S A M E)
    (h1 : nextSampleTime cfg.step T1 tol (est.times.getLastD 0) =
      est.times.getLastD 0 + cfg.step)
    (h2 : nextSampleTime cfg.step T2 tol (est.times.getLastD 0) =
      est.times.getLastD 0 + cfg.step)
    (hb1 : ¬ est.times.getLastD 0 + cfg.step ≥ T1 + tol)
    (hb2 : ¬ est.times.getLastD 0 + cfg.step ≥ T2 + tol) :
    simStep cfg T1 tol inF est = simStep cfg T2 tol inF est := by
  unfold simStep
  rw [h1, h2, if_neg hb1, if_neg hb2]

/-- Splitting a loop run at an on-grid intermediate target replays the same
iterations: if the run to `T1` completes with status `'running'` and `T1`
lies on the output grid of the engine's last recorded time, continuing to
`T2` reaches exactly the state a single run to `T2` (with combined fuel)
reaches. -/
theorem simLoop_compose (cfg : SimConfig S A M E) (T1 T2 tol : ℚ) (inF : ℕ)
    (htol : 0 < tol) (hs : tol ≤ cfg.step) (hT : T1 ≤ T2) :
    ∀ f1 (n : ℕ) (est est1 : EngineState S A M E),
      T1 = est.times.getLastD 0 + n * cfg.step →
      simLoop cfg T1 tol inF f1 est = .ok est1 →
      est1.integrator.status = .running →
      ∀ f2 (est2 : EngineState S A M E),
        simLoop cfg T2 tol inF f2 est1 = .ok est2 →
        simLoop cfg T2 tol inF (f1 + f2) est = .ok est2 := by
  intro f1
  induction f1 using Nat.strong_induction_on with
  | _ f1 ih =>
    intro n est est1 hgrid h1 hrun f2 est2 h2
    obtain ⟨hf1, hcase⟩ := simLoop_ok_inv cfg T1 tol inF f1 est est1 h1
    rcases hcase with hss | ⟨estm, hss, hrest⟩
    · rcases simStep_inv cfg T1 tol inF est _ hss with ⟨hb, hr⟩ | ⟨intg1, hb, hadv, hc⟩
      · injection hr with hr'
        subst hr'
        exact simLoop_mono cfg T2 tol inF f2 (f1 + f2) est1 est2 h2 (by omega)
      · rcases hc with ⟨hst, hr⟩ | ⟨hst, hr⟩
        · injection hr with hr'
          subst hr'
          exact absurd hrun hst
        · have := recordStep_halt_status cfg tol _ est intg1 est1 hr.symm
          rw [hrun] at this
          cases this
    · rcases simStep_inv cfg T1 tol inF est _ hss with ⟨hb, hr⟩ | ⟨intg1, hb, hadv, hc⟩
      · exact absurd hr (by simp)
      rcases hc with ⟨hst, hr⟩ | ⟨hst, hr⟩
      · exact absurd hr (by simp)
      have hn : n ≠ 0 := by
        intro hz
        subst hz
        apply hb
        have hT1c : T1 = est.times.getLastD 0 := by
          rw [hgrid]
          push_cast
          ring
        rw [hT1c]
        exact nextSampleTime_break_at_target cfg.step tol _ htol hs
      obtain ⟨hnx1, hnb1⟩ := nextSampleTime_grid cfg.step tol (est.times.getLastD 0) T1 n
        htol hs hn hgrid
      obtain ⟨hnx2, hnb2⟩ := nextSampleTime_grid_larger cfg.step tol (est.times.getLastD 0)
        T1 T2 n htol hs hn hgrid hT
      have hb1' : ¬ est.times.getLastD 0 + cfg.step ≥ T1 + tol := by
        rw [← hnx1]
        exact hb
      have hb2' : ¬ est.times.getLastD 0 + cfg.step ≥ T2 + tol := by
        rw [← hnx2]
        exact hnb2
      have hswap := simStep_swap_target cfg T1 T2 tol inF est hnx1 hnx2 hb1' hb2'
      have hss2 : simStep cfg T2 tol inF est = .ok (.next estm) := by
        rw [← hswap]
        exact hss
      have htm : estm.times =
          est.times ++ [est.times.getLastD 0 + cfg.step] := by
        have hti := (recordStep_engine cfg tol
          (nextSampleTime cfg.step T1 tol (est.times.getLastD 0)) est intg1).1
        rw [← hr] at hti
        rw [hnx1] at hti
        exact hti
      have hgrid' : T1 = estm.times.getLastD 0 + (n - 1 : ℕ) * cfg.step := by
        rw [htm, List.getLastD_concat, hgrid]
        push_cast [Nat.cast_sub (Nat.one_le_iff_ne_zero.mpr hn)]
        ring
      have hrec := ih (f1 - 1) (by omega) (n - 1) estm est1 hgrid' hrest hrun f2 est2 h2
      rw [simLoop_of_next cfg T2 tol inF (f1 + f2) est estm hss2 (by omega),
        show f1 + f2 - 1 = (f1 - 1) + f2 from by omega]
      exact hrec

/-- **C3, amended.** Calling `simulate_to(T1)` then `simulate_to(T2)` on
one engine yields the same recorded trajectory as a single
`simulate_to(T2)` call — indeed the identical final engine state — when
`T1` lies on the output-sample grid (`T1 = last recorded time + n·step`)
and the first call ends with the integrator still `'running'`.  For
off-grid `T1` the split run records an extra clamped sample at `T1` that
the single run does not (see the counterexample), which is what the
original claim misses. -/
theorem simulate_to_incremental_on_grid
    (cfg : SimConfig S A M E) (est est1 est2 : EngineState S A M E)
    (T1 T2 tol : ℚ) (n f1 f2 inF : ℕ)
    (htol : 0 < tol) (hs : tol ≤ cfg.step)
    (hgrid : T1 = est.times.getLastD 0 + n * cfg.step)
    (hT : T1 ≤ T2)
    (h1 : simulateTo cfg f1 inF est T1 tol = .ok est1)
    (hrun : est1.integrator.status = .running)
    (h2 : simulateTo cfg f2 inF est1 T2 tol = .ok est2) :
    simulateTo cfg (f1 + f2) inF est T2 tol = .ok est2 := by
  unfold simulateTo at h1 h2 ⊢
  by_cases ha1 : T1 < est.cur_sim_time
  · rw [if_pos ha1] at h1
    exact absurd h1 (by simp)
  rw [if_neg ha1] at h1
  by_cases hs1 : est.integrator.status ≠ .running
  · rw [if_pos hs1] at h1
    exact absurd h1 (by simp)
  rw [if_neg hs1] at h1
  by_cases ha2 : T2 < est1.cur_sim_time
  · rw [if_pos ha2] at h2
    exact absurd h2 (by simp)
  rw [if_neg ha2] at h2
  by_cases hs2 : est1.integrator.status ≠ .running
  · rw [if_pos hs2] at h2
    exact absurd h2 (by simp)
  rw [if_neg hs2] at h2
  rw [if_neg (show ¬ T2 < est.cur_sim_time by
    have := not_lt.mp ha1
    linarith), if_neg hs1]
  have h1' : (simLoop cfg T1 tol inF f1 est).map (fun e => setCur e T1) = .ok est1 := by
    rw [← simLoop_setCur]
    exact h1
  cases hok1 : simLoop cfg T1 tol inF f1 est with
  | error e =>
    rw [hok1, except_map_error] at h1'
    exact absurd h1' (by simp)
  | ok est1' =>
    rw [hok1, except_map_ok] at h1'
    injection h1' with hest1
    have hcast : ({ est1 with cur_sim_time := T2 } : EngineState S A M E) =
        setCur est1' T2 := by
      rw [← hest1]
      rfl
    rw [hcast, simLoop_setCur] at h2
    cases hok2 : simLoop cfg T2 tol inF f2 est1' with
    | error e =>
      rw [hok2, except_map_error] at h2
      exact absurd h2 (by simp)
    | ok est2' =>
      rw [hok2, except_map_ok] at h2
      injection h2 with hest2
      have hrun' : est1'.integrator.status = .running := by
        rw [← hest1] at hrun
        exact hrun
      have hmain := simLoop_compose cfg T1 T2 tol inF htol hs hT f1 n est est1'
        hgrid hok1 hrun' f2 est2' hok2
      rw [show ({ est with cur_sim_time := T2 } : EngineState S A M E) =
        setCur est T2 from rfl, simLoop_setCur, hmain, except_map_ok, hest2]

/-- The unit-state engine after the split first call to off-grid time 1/2:
the clamped sample at 1/2 is recorded. -/
def estUnitHalf : EngineState Unit Unit Unit Unit :=
  { times := [0, 1/2], states := [(), ()], modes := [(), ()], xd_list := [], u_list := [],
    Nz_list := [], ps_list := [], Ny_r_list := [], ap := (),
    integrator := unitIntegrator 1, cur_sim_time := 1/2 }

/-- **C3, counterexample.** With output step 1, calling
`simulate_to(1/2)` then `simulate_to(2)` records times `[0, 1/2, 3/2, 2]`,
while a single `simulate_to(2)` on the identically constructed engine
records `[0, 1, 2]`: the trajectories up to `T1 = 1/2` differ (`[0, 1/2]`
vs `[0]`), refuting the claim for off-grid `T1`. -/
theorem split_call_offgrid_counterexample :
    simulateTo cfgUnit 10 3 estUnit (1/2) (1/10000000) = .ok estUnitHalf ∧
    (simulateTo cfgUnit 10 3 estUnitHalf 2 (1/10000000)).map (fun e => e.times) =
      .ok [0, 1/2, 3/2, 2] ∧
    (simulateTo cfgUnit 10 3 estUnit 2 (1/10000000)).map (fun e => e.times) =
      .ok [0, 1, 2] ∧
    (([0, 1/2, 3/2, 2] : List ℚ).filter (fun t => decide (t ≤ 1/2)) = [0, 1/2] ∧
     ([0, 1, 2] : List ℚ).filter (fun t => decide (t ≤ 1/2)) = [0] ∧
     ([0, 1/2] : List ℚ) ≠ [0]) := by
  refine ⟨?_, ?_, ?_, ?_, ?_, ?_⟩
  · norm_num [simulateTo, simLoop_fuel_pos, simStep, nextSampleTime, recordStep,
      resampledState, appendSample, advanceIntegrator_fuel_pos, cfgUnit, estUnit,
      estUnitHalf, unitIntegrator, abs_lt, lt_abs]
  · norm_num [simulateTo, simLoop_fuel_pos, simStep, nextSampleTime, recordStep,
      resampledState, appendSample, advanceIntegrator_fuel_pos, cfgUnit, estUnitHalf,
      unitIntegrator, abs_lt, lt_abs, Except.map]
  · norm_num [simulateTo, simLoop_fuel_pos, simStep, nextSampleTime, recordStep,
      resampledState, appendSample, advanceIntegrator_fuel_pos, cfgUnit, estUnit,
      unitIntegrator, abs_lt, lt_abs, Except.map]
  · norm_num [List.filter]
  · norm_num [List.filter]
  · simp

/-- The unit-state engine after a single run to time 2. -/
def estUnitAfter2 : EngineState Unit Unit Unit Unit :=
  { times := [0, 1, 2], states := [(), (), ()], modes := [(), (), ()], xd_list := [],
    u_list := [], Nz_list := [], ps_list := [], Ny_r_list := [], ap := (),
    integrator := unitIntegrator 2, cur_sim_time := 2 }

/-- Witness for the amended C3 at the on-grid split `T1 = 1`, `T2 = 2`. -/
theorem simulate_to_incremental_on_grid_witness :
    simulateTo cfgUnit (3 + 10) 3 estUnit 2 (1/10000000) = .ok estUnitAfter2 := by
  have h1 : simulateTo cfgUnit 3 3 estUnit 1 (1/10000000) = .ok estUnitAfter1 := by
    norm_num [simulateTo, simLoop_fuel_pos, simStep, nextSampleTime, recordStep,
      resampledState, appendSample, advanceIntegrator_fuel_pos, cfgUnit, estUnit,
      estUnitAfter1, unitIntegrator, abs_lt, lt_abs]
  have h2 : simulateTo cfgUnit 10 3 estUnitAfter1 2 (1/10000000) = .ok estUnitAfter2 := by
    norm_num [simulateTo, simLoop_fuel_pos, simStep, nextSampleTime, recordStep,
      resampledState, appendSample, advanceIntegrator_fuel_pos, cfgUnit, estUnitAfter1,
      estUnitAfter2, unitIntegrator, abs_lt, lt_abs]
  exact simulate_to_incremental_on_grid cfgUnit estUnit estUnitAfter1 estUnitAfter2
    1 2 (1/10000000) 1 3 10 3 (by norm_num) (by norm_num [cfgUnit])
    (by norm_num [estUnit, cfgUnit]) (by norm_num) h1 rfl h2

/-! ### Claim C2: the end-to-end nominal scenario -/

theorem eulerStep_ok (der : ℚ → List ℚ → Except DerFault (List ℚ)) (h : ℚ)
    (intg : Integrator (List ℚ)) (xd : List ℚ)
    (hrun : intg.status = .running) (hder : der intg.t intg.x = .ok xd) :
    eulerStep der h intg =
      { t := intg.t + h
        x := intg.x.zipWith (fun a b => a + h * b) xd
        status := .running
        dense := fun s => intg.x.zipWith (fun a b => a + (s - intg.t) * b) xd } := by
  unfold eulerStep
  rw [if_neg (by simp [hrun]), hder]

theorem advanceIntegrator_two (cfg : SimConfig S A M E) (nextT tol : ℚ) (inF : ℕ)
    (intg : Integrator S) (hinF : 2 ≤ inF) (h1 : nextT ≥ intg.t + tol)
    (hrun : (cfg.stepIntegrator intg).status = .running)
    (h2 : ¬ nextT ≥ (cfg.stepIntegrator intg).t + tol) :
    advanceIntegrator cfg nextT tol inF intg = .ok (cfg.stepIntegrator intg) := by
  rw [advanceIntegrator_fuel_pos cfg nextT tol inF intg (by omega), if_pos h1,
    if_neg (by simp [hrun]),
    advanceIntegrator_fuel_pos cfg nextT tol (inF - 1) _ (by omega), if_neg h2]

theorem resampledState_exact (tol nextT : ℚ) (intg1 : Integrator S)
    (h : intg1.t = nextT) (htol : 0 < tol) :
    resampledState tol nextT intg1 = intg1.x := by
  unfold resampledState
  rw [if_pos (by rw [h]; simpa using htol)]

/-- A uniform run of the spec-modelled fixed-step Euler strategy whose
internal step equals the output interval, over a derivative that succeeds
at the recorded state with a fixed-point Euler update, under an autopilot
that never changes mode and never declares completion: the loop records
exactly one sample per grid point, ending at the target with the
integrator still `'running'`. -/
theorem simLoop_uniform (cfg : SimConfig (List ℚ) A M E)
    (der : ℚ → List ℚ → Except DerFault (List ℚ)) (x0 xd : List ℚ) (tol : ℚ)
    (hcfg : cfg.stepIntegrator = eulerStep der cfg.step)
    (hap : ∀ t x a, cfg.advance_discrete_mode t x a = (a, false))
    (hfin : ∀ t x a, cfg.is_finished t x a = false)
    (hder : ∀ t, der t x0 = .ok xd)
    (hfix : x0.zipWith (fun a b => a + cfg.step * b) xd = x0)
    (htol : 0 < tol) (hs : tol < cfg.step) :
    ∀ (n fuel inF : ℕ) (est : EngineState (List ℚ) A M E) (c : ℚ)
      (dense0 : ℚ → List ℚ),
      est.integrator = { t := c, x := x0, status := .running, dense := dense0 } →
      est.times.getLastD 0 = c →
      n + 1 ≤ fuel → 2 ≤ inF →
      ∃ est', simLoop cfg (c + n * cfg.step) tol inF fuel est = .ok est' ∧
        est'.times = est.times ++
          (List.range n).map (fun j : ℕ => c + ((j : ℚ) + 1) * cfg.step) ∧
        est'.times.getLastD 0 = c + n * cfg.step ∧
        est'.integrator.status = .running ∧
        est'.ap = est.ap := by
  intro n
  induction n with
  | zero =>
    intro fuel inF est c dense0 hintg hlast hfuel hinF
    have hbreak : nextSampleTime cfg.step (c + (0 : ℕ) * cfg.step) tol
        (est.times.getLastD 0) ≥ (c + (0 : ℕ) * cfg.step) + tol := by
      rw [hlast]
      have hc : c + ((0 : ℕ) : ℚ) * cfg.step = c := by
        push_cast
        ring
      rw [hc]
      exact nextSampleTime_break_at_target cfg.step tol c htol hs.le
    refine ⟨est, simLoop_of_halt cfg _ tol inF fuel est est
      (simStep_break cfg _ tol inF est hbreak) (by omega), by simp, ?_, ?_, rfl⟩
    · rw [hlast]
      push_cast
      ring
    · rw [hintg]
  | succ n ih =>
    intro fuel inF est c dense0 hintg hlast hfuel hinF
    have hgrid : c + ((n + 1 : ℕ) : ℚ) * cfg.step =
        est.times.getLastD 0 + ((n + 1 : ℕ) : ℚ) * cfg.step := by
      rw [hlast]
    obtain ⟨hnx, hnb⟩ := nextSampleTime_grid cfg.step tol (est.times.getLastD 0)
      (c + ((n + 1 : ℕ) : ℚ) * cfg.step) (n + 1) htol hs.le (by omega) hgrid
    have hstep1 : cfg.stepIntegrator est.integrator =
        { t := c + cfg.step
          x := x0
          status := .running
          dense := fun s => x0.zipWith (fun a b => a + (s - c) * b) xd } := by
      rw [hcfg, hintg, eulerStep_ok der cfg.step _ xd rfl (hder c)]
      dsimp only
      rw [hfix]
    have hadv : advanceIntegrator cfg
        (nextSampleTime cfg.step (c + ((n + 1 : ℕ) : ℚ) * cfg.step) tol
          (est.times.getLastD 0)) tol inF est.integrator =
        .ok { t := c + cfg.step
              x := x0
              status := .running
              dense := fun s => x0.zipWith (fun a b => a + (s - c) * b) xd } := by
      rw [← hstep1]
      refine advanceIntegrator_two cfg _ tol inF est.integrator hinF ?_ ?_ ?_
      · rw [hnx, hlast, hintg]
        show c + cfg.step ≥ c + tol
        linarith
      · rw [hstep1]
      · rw [hnx, hlast, hstep1]
        show ¬ c + cfg.step ≥ c + cfg.step + tol
        linarith
    have hss := simStep_record cfg (c + ((n + 1 : ℕ) : ℚ) * cfg.step) tol inF est _
      hnb hadv rfl
    set intg1 : Integrator (List ℚ) :=
      { t := c + cfg.step
        x := x0
        status := .running
        dense := fun s => x0.zipWith (fun a b => a + (s - c) * b) xd } with hintg1
    have hx : resampledState tol (nextSampleTime cfg.step
        (c + ((n + 1 : ℕ) : ℚ) * cfg.step) tol (est.times.getLastD 0)) intg1 = x0 :=
      resampledState_exact _ _ intg1 (by rw [hnx, hlast]) htol
    have hrs : recordStep cfg tol (nextSampleTime cfg.step
        (c + ((n + 1 : ℕ) : ℚ) * cfg.step) tol (est.times.getLastD 0)) est intg1 =
        .next (appendSample cfg est (nextSampleTime cfg.step
          (c + ((n + 1 : ℕ) : ℚ) * cfg.step) tol (est.times.getLastD 0)) x0 est.ap intg1) := by
      rcases recordStep_inv cfg tol (nextSampleTime cfg.step
          (c + ((n + 1 : ℕ) : ℚ) * cfg.step) tol (est.times.getLastD 0)) est intg1 with
        ⟨hf, _⟩ | ⟨_, hmc, _⟩ | ⟨_, _, hr⟩
      · rw [hfin] at hf
        cases hf
      · rw [hx, hap] at hmc
        cases hmc
      · rw [hr, hx, hap]
    set est2 := appendSample cfg est (nextSampleTime cfg.step
      (c + ((n + 1 : ℕ) : ℚ) * cfg.step) tol (est.times.getLastD 0)) x0 est.ap intg1
      with hest2
    have hest2i : est2.integrator =
        ({ t := c + cfg.step, x := x0, status := .running,
           dense := fun s => x0.zipWith (fun a b => a + (s - c) * b) xd } :
          Integrator (List ℚ)) :=
      appendSample_integrator ..
    have hest2t : est2.times = est.times ++ [c + cfg.step] := by
      rw [hest2, appendSample_times, hnx, hlast]
    have hest2l : est2.times.getLastD 0 = c + cfg.step := by
      rw [hest2t, List.getLastD_concat]
    have hest2a : est2.ap = est.ap := appendSample_ap ..
    obtain ⟨est', hloop, ht', hl', hst', ha'⟩ := ih (fuel - 1) inF est2 (c + cfg.step)
      (fun s => x0.zipWith (fun a b => a + (s - c) * b) xd) hest2i hest2l
      (by omega) hinF
    have hcast : c + ((n + 1 : ℕ) : ℚ) * cfg.step =
        (c + cfg.step) + (n : ℚ) * cfg.step := by
      push_cast
      ring
    refine ⟨est', ?_, ?_, ?_, hst', by rw [ha', hest2a]⟩
    · rw [simLoop_of_next cfg _ tol inF fuel est est2 (by rw [hss, hrs]) (by omega)]
      rw [hcast]
      exact hloop
    · have hfun : (fun j : ℕ => (c + cfg.step) + ((j : ℚ) + 1) * cfg.step) =
          ((fun j : ℕ => c + ((j : ℚ) + 1) * cfg.step) ∘ Nat.succ) := by
        funext j
        show (c + cfg.step) + ((j : ℚ) + 1) * cfg.step =
          c + (((j + 1 : ℕ) : ℚ) + 1) * cfg.step
        push_cast
        ring
      rw [ht', hest2t, List.append_assoc]
      congr 1
      rw [List.range_succ_eq_map, List.map_cons, List.map_map, ← hfun,
        List.singleton_append]
      congr 1
      norm_num
    · rw [hl', hcast]

/-- The engine configuration of the claimed end-to-end scenario: output
step `1/30`, extended states off, an autopilot that never changes mode and
never declares completion, and the spec-modelled fixed-step Euler strategy
driving the embedded derivative evaluator over the zero dynamics model. -/
def cfgC2 : SimConfig (List ℚ) Unit Unit Unit :=
  { step := 1/30
    extended_states := false
    advance_discrete_mode := fun _ _ a => (a, false)
    mode := fun a => a
    is_finished := fun _ _ _ => false
    get_extended_states := fun _ _ _ => ((), (), (), (), ())
    mkIntegrator := fun t x => eulerInit t x
    stepIntegrator := eulerStep (der_func uZero4 f16Zero 0) (1/30) }

/-- The engine `mkF16SimState cfgC2 13 () nominalState` constructs. -/
def est0C2 : EngineState (List ℚ) Unit Unit Unit :=
  { times := [0], states := [nominalState], modes := [()], xd_list := [], u_list := [],
    Nz_list := [], ps_list := [], Ny_r_list := [], ap := (),
    integrator := eulerInit 0 nominalState, cur_sim_time := 0 }

/-- **C2** (behaviour of the code at the claimed scenario).  A fresh engine
with step `1/30`, the nominal in-bounds initial state, and an autopilot
that never changes mode and never declares completion, simulated to target
time 5, records exactly 151 samples with last recorded time exactly 5
(hence within tolerance `1e-7`) — but the final integrator status is
`'running'`, not the claimed `'finished'`: the engine constructs its
integrator with an unbounded horizon (`np.inf`, line 77) and never sets
`'finished'` anywhere, contradicting `run_f16_sim`'s own docstring
("status ... should be 'finished' if no errors"). -/
theorem run_to_five_gives_151_samples_status_running :
    mkF16SimState cfgC2 13 () nominalState = .ok est0C2 ∧
    ∃ est', simulateTo cfgC2 160 2 est0C2 5 (1/10000000) = .ok est' ∧
      est'.times.length = 151 ∧
      est'.times.getLastD 0 = 5 ∧
      est'.integrator.status = .running := by
  have hder : ∀ t : ℚ, der_func uZero4 f16Zero 0 t nominalState =
      .ok (nominalState.map fun _ => 0) := by
    intro t
    norm_num [der_func, derAircraftList, derAircraft, uZero4, f16Zero, nominalState,
      STATE_NAMES_LEN, StateIndex.ALPHA, StateIndex.VEL, StateIndex.ALT,
      except_bind_ok, except_map_ok]
  have hfix : nominalState.zipWith (fun a b => a + (1/30 : ℚ) * b)
      (nominalState.map fun _ => 0) = nominalState := by
    norm_num [nominalState]
  obtain ⟨est', hloop, ht, hl, hst, -⟩ := simLoop_uniform cfgC2
    (der_func uZero4 f16Zero 0) nominalState (nominalState.map fun _ => 0)
    (1/10000000) rfl (fun _ _ _ => rfl) (fun _ _ _ => rfl) hder hfix
    (by norm_num) (by norm_num [cfgC2]) 150 160 2
    { est0C2 with cur_sim_time := 5 } 0 (fun _ => nominalState) rfl rfl
    (by omega) (by omega)
  refine ⟨rfl, est', ?_, ?_, ?_, hst⟩
  · unfold simulateTo
    rw [if_neg (by norm_num [est0C2]), if_neg (by simp [est0C2, eulerInit])]
    have h5 : (5 : ℚ) = 0 + ((150 : ℕ) : ℚ) * cfgC2.step := by
      norm_num [cfgC2]
    nth_rewrite 1 [h5]
    exact hloop
  · rw [ht]
    simp [est0C2]
  · rw [hl]
    norm_num [cfgC2]

end AeroBench
